import Mathlib

/-!
# Verification of the supersonic media-iteration layer

Shallow embedding of the paginated, filtered, lazily-fetched media
iteration layer of the `supersonic` music client:

* the generic paging iterator `baseIter` (`helpers` package,
  `baseIter.Next`), generic over the media type `M`;
* the two-phase random album iterator (`randomAlbumIter.Next`);
* the Jellyfin provider's filter translation (`jfFilterFromFilter`).

Modelling conventions:

* A Go fetch function `func(offset, limit int) ([]*M, error)` becomes a
  pure oracle `Nat → Nat → FetchResult M`; `FetchResult.err` stands for a
  non-nil `error`, `FetchResult.ok items` for a successful page.  For the
  random endpoint — always invoked with the same arguments `(0, 25)` —
  the oracle is instead indexed by the number of calls made so far
  (tracked in the state field `randCalls`), so that an arbitrary sequence
  of server responses to the repeated identical requests is representable.
* Go's `for` loops carry an explicit fuel parameter; `none` as the outer
  result means the fuel ran out (or a buffer index was out of range, where
  Go would panic) — it is never an end-marker.  The end-marker `nil`
  returned by `Next` is modelled as `some (none, ...)`.
* The prefetch callbacks (`go r.prefetchCB(...)`) are fire-and-forget side
  effects that never influence the returned items or the iterator state,
  so they are omitted from the state machine.
* Each `Next` also returns the list of fetch calls it issued (offsets for
  the generic iterator, tagged calls for the random iterator), so that
  properties about which fetcher was called, and at which offsets, can be
  stated.
-/

namespace Supersonic

set_option maxRecDepth 8192

/-- Result of one fetch call: `ok items` for `(items, nil)`, `err` for a
non-nil transport error. -/
inductive FetchResult (M : Type) where
  | ok (items : List M)
  | err
deriving Repr, DecidableEq

/-- The page of items the Go code works with after its error handling:
both iterators turn an error into a `nil` slice (`items = nil`). -/
def pageItems {M : Type} : FetchResult M → List M
  | .ok items => items
  | .err => []

/-- The filter capability used by the iterators: `IsNil` and `Matches`
(from the `mediaprovider.MediaFilter` interface). -/
structure Filter (M : Type) where
  IsNil : Bool
  Matches : M → Bool

/-- Modelled from the spec: `sharedutil.FilterSlice` (not under `src/`)
keeps exactly the items matching the predicate — the spec's "remove
non-matching items from the page client-side". -/
def FilterSlice {M : Type} (p : M → Bool) (xs : List M) : List M :=
  xs.filter p

/-- Lines 71-73 of the iterator helper: filtering is skipped entirely
when the filter reports `IsNil`. -/
def applyFilter {M : Type} (flt : Filter M) (items : List M) : List M :=
  if flt.IsNil then items else FilterSlice flt.Matches items

/-- The no-op filter used for track iteration (`nilFilter`):
`IsNil` is true and `Matches` accepts every item. -/
def nilFilter (M : Type) : Filter M :=
  { IsNil := true, Matches := fun _ => true }

/-- Mutable state of the generic iterator `baseIter`: server offset,
prefetch buffer (`nil` slice versus a present slice), buffer read
position, and the terminal flag. -/
structure BaseState (M : Type) where
  serverPos : Nat
  prefetched : Option (List M)
  prefetchedPos : Nat
  done : Bool
deriving Repr, DecidableEq

/-- Zero-value state produced by the `NewAlbumIterator` /
`NewArtistIterator` / `NewTrackIterator` constructors. -/
def initBase (M : Type) : BaseState M :=
  { serverPos := 0, prefetched := none, prefetchedPos := 0, done := false }

/-- The fetch loop of `baseIter.Next` (lines 60-78): fetch a page of 20 at
the current offset, terminate on an empty (or errored) page, otherwise
advance the offset by the page length, filter, and either return the
first match or loop.  Returns the served item (or end-marker), the new
state, and the offsets of the fetch calls issued. -/
def baseFetchLoop {M : Type} (f : Nat → Nat → FetchResult M) (flt : Filter M) :
    Nat → BaseState M → Option (Option M × BaseState M × List Nat)
  | 0, _ => none
  | fuel + 1, s =>
    let items := pageItems (f s.serverPos 20)
    if items.isEmpty then
      some (none, { s with done := true }, [s.serverPos])
    else
      let s1 := { s with serverPos := s.serverPos + items.length }
      match applyFilter flt items with
      | [] =>
        match baseFetchLoop f flt fuel { s1 with prefetched := some [] } with
        | none => none
        | some (r, s2, calls) => some (r, s2, s.serverPos :: calls)
      | a :: rest =>
        some (some a,
          { s1 with prefetched := some (a :: rest), prefetchedPos := 1 },
          [s.serverPos])

/-- `baseIter.Next` (lines 50-86): short-circuit when done, serve from the
prefetch buffer when it has unread items, otherwise reset the buffer and
run the fetch loop. -/
def baseNext {M : Type} (f : Nat → Nat → FetchResult M) (flt : Filter M)
    (fuel : Nat) (s : BaseState M) : Option (Option M × BaseState M × List Nat) :=
  if s.done then
    some (none, s, [])
  else
    match s.prefetched with
    | some l =>
      match l.get? s.prefetchedPos with
      | some a => some (some a, { s with prefetchedPos := s.prefetchedPos + 1 }, [])
      | none => baseFetchLoop f flt fuel { s with prefetched := none }
    | none => baseFetchLoop f flt fuel s

/-- `n` successive calls of `baseIter.Next`, collecting the results and
the fetch-call trace. -/
def baseRun {M : Type} (f : Nat → Nat → FetchResult M) (flt : Filter M) (fuel : Nat) :
    Nat → BaseState M → Option (List (Option M) × BaseState M × List Nat)
  | 0, s => some ([], s, [])
  | n + 1, s =>
    match baseNext f flt fuel s with
    | none => none
    | some (r, s1, c) =>
      match baseRun f flt fuel n s1 with
      | none => none
      | some (rs, s2, cs) => some (r :: rs, s2, c ++ cs)

/-! ## The two-phase random album iterator -/

/-- A domain album: a stable opaque ID plus a cover-art reference
(the only fields the iteration layer reads). -/
structure Album where
  id : String
  coverArtID : String
deriving Repr, DecidableEq

/-- One fetch call issued by the random album iterator, tagged with the
fetcher it went to and the `(offset, limit)` arguments. -/
inductive FetchCall where
  | random (offset limit : Nat)
  | determ (offset limit : Nat)
deriving Repr, DecidableEq

/-- Mutable state of `randomAlbumIter`.  The Go `map[string]bool`
`albumIDSet` is modelled as a list of IDs with `contains` membership
(only membership and insertion are used); setting the map to `nil` on
termination is modelled as `[]`.  `randCalls` is model instrumentation:
the number of random-endpoint calls so far, indexing the server's
response sequence. -/
structure RandomState where
  albumIDSet : List String
  prefetched : List Album
  prefetchedPos : Nat
  phaseTwo : Bool
  offset : Nat
  done : Bool
  randCalls : Nat
deriving Repr, DecidableEq

/-- State produced by `NewRandomAlbumIter`: zero values plus a fresh
empty ID set. -/
def initRandom : RandomState :=
  { albumIDSet := [], prefetched := [], prefetchedPos := 0,
    phaseTwo := false, offset := 0, done := false, randCalls := 0 }

/-- The phase-one per-batch loop (lines 156-169): for each album whose ID
is not yet in the seen set, count it as a hit and mark it seen — even
when the filter rejects it — and append it to the prefetch buffer when
the filter matches.  Returns `(buffer, seenSet, hitCount)`. -/
def processRandomBatch (flt : Filter Album) :
    List Album → List String → List Album → Nat → List Album × List String × Nat
  | [], seen, pre, hits => (pre, seen, hits)
  | a :: rest, seen, pre, hits =>
    if seen.contains a.id then
      processRandomBatch flt rest seen pre hits
    else
      processRandomBatch flt rest (a.id :: seen)
        (if flt.Matches a then pre ++ [a] else pre) (hits + 1)

/-- The phase-two per-batch loop (lines 138-146): an album is buffered and
marked seen only when it is both unseen and matched by the filter.
Returns `(buffer, seenSet)`. -/
def processDetermBatch (flt : Filter Album) :
    List Album → List String → List Album → List Album × List String
  | [], seen, pre => (pre, seen)
  | a :: rest, seen, pre =>
    if !(seen.contains a.id) && flt.Matches a then
      processDetermBatch flt rest (a.id :: seen) (pre ++ [a])
    else
      processDetermBatch flt rest seen pre

/-- The fetch loop of `randomAlbumIter.Next` (lines 124-174) followed by
the buffer-draining return (lines 177-186).  `re` is the random-endpoint
response sequence (the call is always `(0, 25)`), `de` the deterministic
fetcher oracle.  In phase one a transport error terminates directly
(lines 149-154), the new-item ratio check `hitCount/25 < 0.3` — exact for
the float64 arithmetic at these magnitudes, see `twoMulLt15` below —
switches to phase two (lines 170-172).  In phase two an error is turned
into an empty page (lines 128-131) and an empty page terminates
(lines 132-136). -/
def randomNextLoop (re : Nat → FetchResult Album) (de : Nat → Nat → FetchResult Album)
    (flt : Filter Album) :
    Nat → RandomState → Option (Option Album × RandomState × List FetchCall)
  | 0, _ => none
  | fuel + 1, s =>
    if s.prefetched.isEmpty then
      if s.phaseTwo then
        let albums := pageItems (de s.offset 25)
        if albums.isEmpty then
          some (none, { s with done := true, albumIDSet := [] }, [.determ s.offset 25])
        else
          let pr := processDetermBatch flt albums s.albumIDSet s.prefetched
          match randomNextLoop re de flt fuel
              { s with offset := s.offset + albums.length,
                       prefetched := pr.1, albumIDSet := pr.2 } with
          | none => none
          | some (r, s1, calls) => some (r, s1, .determ s.offset 25 :: calls)
      else
        match re s.randCalls with
        | .err =>
          some (none,
            { s with done := true, albumIDSet := [], randCalls := s.randCalls + 1 },
            [.random 0 25])
        | .ok albums =>
          let pr := processRandomBatch flt albums s.albumIDSet s.prefetched 0
          match randomNextLoop re de flt fuel
              { s with albumIDSet := pr.2.1, prefetched := pr.1,
                       randCalls := s.randCalls + 1,
                       phaseTwo := if 2 * pr.2.2 < 15 then true else s.phaseTwo } with
          | none => none
          | some (r, s1, calls) => some (r, s1, .random 0 25 :: calls)
    else
      match s.prefetched.get? s.prefetchedPos with
      | none => none
      | some a =>
        if s.prefetchedPos + 1 = s.prefetched.length then
          some (some a, { s with prefetched := [], prefetchedPos := 0 }, [])
        else
          some (some a, { s with prefetchedPos := s.prefetchedPos + 1 }, [])

/-- `randomAlbumIter.Next` (lines 117-189): short-circuit when done,
otherwise run the fetch/serve loop. -/
def randomNext (re : Nat → FetchResult Album) (de : Nat → Nat → FetchResult Album)
    (flt : Filter Album) (fuel : Nat) (s : RandomState) :
    Option (Option Album × RandomState × List FetchCall) :=
  if s.done then some (none, s, []) else randomNextLoop re de flt fuel s

/-- `n` successive calls of `randomAlbumIter.Next`, collecting results and
the fetch-call trace. -/
def randomRun (re : Nat → FetchResult Album) (de : Nat → Nat → FetchResult Album)
    (flt : Filter Album) (fuel : Nat) :
    Nat → RandomState → Option (List (Option Album) × RandomState × List FetchCall)
  | 0, s => some ([], s, [])
  | n + 1, s =>
    match randomNext re de flt fuel s with
    | none => none
    | some (r, s1, c) =>
      match randomRun re de flt fuel n s1 with
      | none => none
      | some (rs, s2, cs) => some (r :: rs, s2, c ++ cs)

/-- The exact rational comparison `hitCount/25 < 0.3` agrees with the Go
`float64` comparison for every integer `hitCount` (both hold exactly when
`hitCount ≤ 7`; the nearest doubles to `h/25` and `0.3` are within
`2⁻⁵⁰` of the exact values, far smaller than the `0.02` gap between
`7/25`, `8/25` and `3/10`).  We state the model's condition in the
integer form `2 * hitCount < 15`. -/
theorem twoMulLt15 (h : Nat) : 2 * h < 15 ↔ h ≤ 7 := by omega

/-! ## Exhaustion lemmas for the generic iterator -/

theorem baseFetchLoop_none_done {M : Type} (f : Nat → Nat → FetchResult M)
    (flt : Filter M) :
    ∀ (fuel : Nat) (s s' : BaseState M) (c : List Nat),
      baseFetchLoop f flt fuel s = some (none, s', c) → s'.done = true := by
  intro fuel
  induction fuel with
  | zero => intro s s' c h; simp [baseFetchLoop] at h
  | succ n ih =>
    intro s s' c h
    simp only [baseFetchLoop] at h
    split at h
    · rw [Option.some.injEq, Prod.mk.injEq, Prod.mk.injEq] at h
      obtain ⟨-, hs, -⟩ := h
      rw [← hs]
    · split at h
      · split at h
        · exact absurd h (by simp)
        · next r s2 calls heq =>
          rw [Option.some.injEq, Prod.mk.injEq, Prod.mk.injEq] at h
          obtain ⟨hr, hs, -⟩ := h
          rw [← hs]
          exact ih _ _ _ (by rw [heq, hr])
      · rw [Option.some.injEq, Prod.mk.injEq] at h
        exact absurd h.1 (by simp)

theorem baseNext_none_done {M : Type} (f : Nat → Nat → FetchResult M)
    (flt : Filter M) (fuel : Nat) (s s' : BaseState M) (c : List Nat)
    (h : baseNext f flt fuel s = some (none, s', c)) : s'.done = true := by
  unfold baseNext at h
  split at h
  · next hd =>
    rw [Option.some.injEq, Prod.mk.injEq, Prod.mk.injEq] at h
    obtain ⟨-, hs, -⟩ := h
    rw [← hs]; exact hd
  · split at h
    · split at h
      · rw [Option.some.injEq, Prod.mk.injEq] at h
        exact absurd h.1 (by simp)
      · exact baseFetchLoop_none_done f flt fuel _ s' c h
    · exact baseFetchLoop_none_done f flt fuel _ s' c h

theorem baseNext_of_done {M : Type} (f : Nat → Nat → FetchResult M)
    (flt : Filter M) (fuel : Nat) (s : BaseState M) (hd : s.done = true) :
    baseNext f flt fuel s = some (none, s, []) := by
  unfold baseNext
  simp [hd]

theorem baseRun_of_done {M : Type} (f : Nat → Nat → FetchResult M)
    (flt : Filter M) (fuel : Nat) :
    ∀ (n : Nat) (s : BaseState M), s.done = true →
      baseRun f flt fuel n s = some (List.replicate n none, s, []) := by
  intro n
  induction n with
  | zero => intro s _; simp [baseRun]
  | succ k ih =>
    intro s hd
    simp only [baseRun, baseNext_of_done f flt fuel s hd, ih s hd]
    simp [List.replicate_succ]

/-! ## Exhaustion lemmas for the random album iterator -/

theorem randomNextLoop_none_done (re : Nat → FetchResult Album)
    (de : Nat → Nat → FetchResult Album) (flt : Filter Album) :
    ∀ (fuel : Nat) (s s' : RandomState) (c : List FetchCall),
      randomNextLoop re de flt fuel s = some (none, s', c) → s'.done = true := by
  intro fuel
  induction fuel with
  | zero => intro s s' c h; simp [randomNextLoop] at h
  | succ n ih =>
    intro s s' c h
    simp only [randomNextLoop] at h
    split at h
    · split at h
      · -- phase two
        split at h
        · rw [Option.some.injEq, Prod.mk.injEq, Prod.mk.injEq] at h
          obtain ⟨-, hs, -⟩ := h
          rw [← hs]
        · split at h
          · exact absurd h (by simp)
          · next r s2 calls heq =>
            rw [Option.some.injEq, Prod.mk.injEq, Prod.mk.injEq] at h
            obtain ⟨hr, hs, -⟩ := h
            rw [← hs]
            exact ih _ _ _ (by rw [heq, hr])
      · -- phase one
        split at h
        · rw [Option.some.injEq, Prod.mk.injEq, Prod.mk.injEq] at h
          obtain ⟨-, hs, -⟩ := h
          rw [← hs]
        · split at h
          · exact absurd h (by simp)
          · next r s2 calls heq =>
            rw [Option.some.injEq, Prod.mk.injEq, Prod.mk.injEq] at h
            obtain ⟨hr, hs, -⟩ := h
            rw [← hs]
            exact ih _ _ _ (by rw [heq, hr])
    · -- serve branch never returns the end-marker
      split at h
      · exact absurd h (by simp)
      · split at h
        · rw [Option.some.injEq, Prod.mk.injEq] at h
          exact absurd h.1 (by simp)
        · rw [Option.some.injEq, Prod.mk.injEq] at h
          exact absurd h.1 (by simp)

theorem randomNext_none_done (re : Nat → FetchResult Album)
    (de : Nat → Nat → FetchResult Album) (flt : Filter Album) (fuel : Nat)
    (s s' : RandomState) (c : List FetchCall)
    (h : randomNext re de flt fuel s = some (none, s', c)) : s'.done = true := by
  unfold randomNext at h
  split at h
  · next hd =>
    rw [Option.some.injEq, Prod.mk.injEq, Prod.mk.injEq] at h
    obtain ⟨-, hs, -⟩ := h
    rw [← hs]; exact hd
  · exact randomNextLoop_none_done re de flt fuel s s' c h

theorem randomNext_of_done (re : Nat → FetchResult Album)
    (de : Nat → Nat → FetchResult Album) (flt : Filter Album) (fuel : Nat)
    (s : RandomState) (hd : s.done = true) :
    randomNext re de flt fuel s = some (none, s, []) := by
  unfold randomNext
  simp [hd]

theorem randomRun_of_done (re : Nat → FetchResult Album)
    (de : Nat → Nat → FetchResult Album) (flt : Filter Album) (fuel : Nat) :
    ∀ (n : Nat) (s : RandomState), s.done = true →
      randomRun re de flt fuel n s = some (List.replicate n none, s, []) := by
  intro n
  induction n with
  | zero => intro s _; simp [randomRun]
  | succ k ih =>
    intro s hd
    simp only [randomRun, randomNext_of_done re de flt fuel s hd, ih s hd]
    simp [List.replicate_succ]

/-! ## C1: exhaustion is permanent -/

/-- **C1**: for the generic album/artist/track iterator and for the random
album iterator, once `Next()` returns the end-marker, every subsequent
call on that iterator instance also returns the end-marker (with
unchanged state and no further fetch calls), whatever the fetchers and
filters do afterwards — the iterator never returns a non-nil item after
first reporting exhaustion. -/
theorem exhaustion_is_permanent :
    (∀ (M : Type) (f : Nat → Nat → FetchResult M) (flt : Filter M) (fuel : Nat)
        (s s' : BaseState M) (c : List Nat),
        baseNext f flt fuel s = some (none, s', c) →
        ∀ (g : Nat → Nat → FetchResult M) (flt2 : Filter M) (fuel2 n : Nat),
          baseRun g flt2 fuel2 n s' = some (List.replicate n none, s', [])) ∧
    (∀ (re : Nat → FetchResult Album) (de : Nat → Nat → FetchResult Album)
        (flt : Filter Album) (fuel : Nat) (s s' : RandomState) (c : List FetchCall),
        randomNext re de flt fuel s = some (none, s', c) →
        ∀ (re2 : Nat → FetchResult Album) (de2 : Nat → Nat → FetchResult Album)
          (flt2 : Filter Album) (fuel2 n : Nat),
          randomRun re2 de2 flt2 fuel2 n s' = some (List.replicate n none, s', [])) := by
  constructor
  · intro M f flt fuel s s' c h g flt2 fuel2 n
    exact baseRun_of_done g flt2 fuel2 n s' (baseNext_none_done f flt fuel s s' c h)
  · intro re de flt fuel s s' c h re2 de2 flt2 fuel2 n
    exact randomRun_of_done re2 de2 flt2 fuel2 n s'
      (randomNext_none_done re de flt fuel s s' c h)

/-- Witness for C1 at concrete inputs: an immediately-empty fetcher
exhausts the generic iterator on the first call, a phase-one transport
error exhausts the random iterator; both then return only end-markers. -/
theorem exhaustion_is_permanent_witness :
    baseRun (fun _ _ => FetchResult.ok ([] : List Nat)) (nilFilter Nat) 1 2
        ⟨0, none, 0, true⟩ =
      some ([none, none], ⟨0, none, 0, true⟩, []) ∧
    randomRun (fun _ => FetchResult.err) (fun _ _ => FetchResult.err)
        (nilFilter Album) 1 2 ⟨[], [], 0, false, 0, true, 1⟩ =
      some ([none, none], ⟨[], [], 0, false, 0, true, 1⟩, []) :=
  ⟨exhaustion_is_permanent.1 Nat (fun _ _ => FetchResult.ok []) (nilFilter Nat) 1
      (initBase Nat) ⟨0, none, 0, true⟩ [0] rfl
      (fun _ _ => FetchResult.ok []) (nilFilter Nat) 1 2,
   exhaustion_is_permanent.2 (fun _ => FetchResult.err) (fun _ _ => FetchResult.err)
      (nilFilter Album) 1 initRandom ⟨[], [], 0, false, 0, true, 1⟩
      [FetchCall.random 0 25] rfl
      (fun _ => FetchResult.err) (fun _ _ => FetchResult.err) (nilFilter Album) 1 2⟩

/-! ## C2: the phase-one / phase-two error asymmetry -/

/-- **C2, counterexample**: the claim says a phase-two transport error is
"not by itself ending the iteration"; in the code it is.  Concretely: the
random fetcher returns one batch of 25 copies of album `"a"` (new-item
ratio 1/25 < 0.30, so the iterator switches to phase two), and the
deterministic fetcher then reports a transport error on its very first
call — it never returns an empty page — yet the iterator terminates
permanently (`done = true`, all further results are end-markers). -/
theorem phase_two_error_terminates :
    randomNext (fun _ => FetchResult.ok (List.replicate 25 (⟨"a", "a"⟩ : Album)))
        (fun _ _ => FetchResult.err) (nilFilter Album) 2
        ⟨["a"], [], 0, true, 0, false, 1⟩ =
      some (none, ⟨[], [], 0, true, 0, true, 1⟩, [FetchCall.determ 0 25]) ∧
    randomRun (fun _ => FetchResult.ok (List.replicate 25 (⟨"a", "a"⟩ : Album)))
        (fun _ _ => FetchResult.err) (nilFilter Album) 2 3 initRandom =
      some ([some ⟨"a", "a"⟩, none, none], ⟨[], [], 0, true, 0, true, 1⟩,
        [FetchCall.random 0 25, FetchCall.determ 0 25]) :=
  ⟨rfl, rfl⟩

/-- **C2, amended**: a transport error from the random fetcher during
phase one immediately and permanently terminates the iterator; in phase
two a transport error from the deterministic fetcher is logged and
converted into an empty page, and — exactly like a genuinely empty
page — it also immediately and permanently terminates the iterator
(`done` is set, the seen-ID set is released, and once `done` every call
returns the end-marker). -/
theorem phase_error_handling :
    (∀ (re : Nat → FetchResult Album) (de : Nat → Nat → FetchResult Album)
        (flt : Filter Album) (fuel : Nat) (s : RandomState),
        s.done = false → s.prefetched = [] → s.phaseTwo = false →
        re s.randCalls = FetchResult.err →
        randomNext re de flt (fuel + 1) s =
          some (none,
            { s with done := true, albumIDSet := [], randCalls := s.randCalls + 1 },
            [FetchCall.random 0 25])) ∧
    (∀ (re : Nat → FetchResult Album) (de : Nat → Nat → FetchResult Album)
        (flt : Filter Album) (fuel : Nat) (s : RandomState),
        s.done = false → s.prefetched = [] → s.phaseTwo = true →
        de s.offset 25 = FetchResult.err →
        randomNext re de flt (fuel + 1) s =
          some (none, { s with done := true, albumIDSet := [] },
            [FetchCall.determ s.offset 25])) ∧
    (∀ (re : Nat → FetchResult Album) (de : Nat → Nat → FetchResult Album)
        (flt : Filter Album) (fuel : Nat) (s : RandomState),
        s.done = false → s.prefetched = [] → s.phaseTwo = true →
        de s.offset 25 = FetchResult.ok [] →
        randomNext re de flt (fuel + 1) s =
          some (none, { s with done := true, albumIDSet := [] },
            [FetchCall.determ s.offset 25])) ∧
    (∀ (re : Nat → FetchResult Album) (de : Nat → Nat → FetchResult Album)
        (flt : Filter Album) (fuel : Nat) (s : RandomState),
        s.done = true → randomNext re de flt fuel s = some (none, s, [])) := by
  refine ⟨?_, ?_, ?_, ?_⟩
  · intro re de flt fuel s hd hpre hpt herr
    simp [randomNext, randomNextLoop, hd, hpre, hpt, herr]
  · intro re de flt fuel s hd hpre hpt herr
    simp [randomNext, randomNextLoop, hd, hpre, hpt, herr, pageItems]
  · intro re de flt fuel s hd hpre hpt herr
    simp [randomNext, randomNextLoop, hd, hpre, hpt, herr, pageItems]
  · intro re de flt fuel s hd
    exact randomNext_of_done re de flt fuel s hd

/-- Witness for the amended C2 at concrete inputs. -/
theorem phase_error_handling_witness :
    randomNext (fun _ => FetchResult.err) (fun _ _ => FetchResult.err)
        (nilFilter Album) 1 initRandom =
      some (none, ⟨[], [], 0, false, 0, true, 1⟩, [FetchCall.random 0 25]) ∧
    randomNext (fun _ => FetchResult.err) (fun _ _ => FetchResult.err)
        (nilFilter Album) 1 ⟨["a"], [], 0, true, 3, false, 1⟩ =
      some (none, ⟨[], [], 0, true, 3, true, 1⟩, [FetchCall.determ 3 25]) ∧
    randomNext (fun _ => FetchResult.err) (fun _ _ => FetchResult.ok [])
        (nilFilter Album) 1 ⟨["a"], [], 0, true, 3, false, 1⟩ =
      some (none, ⟨[], [], 0, true, 3, true, 1⟩, [FetchCall.determ 3 25]) ∧
    randomNext (fun _ => FetchResult.err) (fun _ _ => FetchResult.err)
        (nilFilter Album) 0 ⟨[], [], 0, false, 0, true, 1⟩ =
      some (none, ⟨[], [], 0, false, 0, true, 1⟩, []) :=
  ⟨phase_error_handling.1 (fun _ => FetchResult.err) (fun _ _ => FetchResult.err)
      (nilFilter Album) 0 initRandom rfl rfl rfl rfl,
   phase_error_handling.2.1 (fun _ => FetchResult.err) (fun _ _ => FetchResult.err)
      (nilFilter Album) 0 ⟨["a"], [], 0, true, 3, false, 1⟩ rfl rfl rfl rfl,
   phase_error_handling.2.2.1 (fun _ => FetchResult.err) (fun _ _ => FetchResult.ok [])
      (nilFilter Album) 0 ⟨["a"], [], 0, true, 3, false, 1⟩ rfl rfl rfl rfl,
   phase_error_handling.2.2.2 (fun _ => FetchResult.err) (fun _ _ => FetchResult.err)
      (nilFilter Album) 0 ⟨[], [], 0, false, 0, true, 1⟩ rfl⟩

/-! ## C8: end-to-end scenario -/

/-- Run composition: a run of `m + n` calls is the run of `m` calls
followed by a run of `n` calls from the intermediate state. -/
theorem baseRun_add {M : Type} (f : Nat → Nat → FetchResult M) (flt : Filter M)
    (fuel : Nat) : ∀ (m n : Nat) (s : BaseState M),
    baseRun f flt fuel (m + n) s =
      match baseRun f flt fuel m s with
      | none => none
      | some (rs, s1, cs) =>
        match baseRun f flt fuel n s1 with
        | none => none
        | some (rs2, s2, cs2) => some (rs ++ rs2, s2, cs ++ cs2) := by
  intro m
  induction m with
  | zero =>
    intro n s
    simp only [Nat.zero_add, baseRun]
    cases h : baseRun f flt fuel n s with
    | none => rfl
    | some t => obtain ⟨rs, s1, cs⟩ := t; simp
  | succ k ih =>
    intro n s
    have hadd : k + 1 + n = (k + n) + 1 := by omega
    rw [hadd]
    simp only [baseRun]
    cases hnx : baseNext f flt fuel s with
    | none => simp
    | some t =>
      obtain ⟨r, s1, c⟩ := t
      simp only [ih n s1]
      cases h1 : baseRun f flt fuel k s1 with
      | none => simp
      | some t1 =>
        obtain ⟨rs, s2, cs⟩ := t1
        cases h2 : baseRun f flt fuel n s2 with
        | none => simp [h2]
        | some t2 =>
          obtain ⟨rs2, s3, cs2⟩ := t2
          simp [h2, List.append_assoc]

/-- Fetch function of the C8 end-to-end scenario: full pages of 20
consecutively numbered items at offsets 0 and 20, and an empty page at
every other offset (in particular 40).  No filter is active. -/
def scenarioFetcher (o : Nat) (_limit : Nat) : FetchResult Nat :=
  if o = 0 then .ok (List.range' 0 20)
  else if o = 20 then .ok (List.range' 20 20)
  else .ok []

/-- **C8**: with full pages of 20 at offsets 0 and 20 and an empty page at
offset 40 and no active filter, the first 40 `Next()` calls return the 40
fetched items in fetch order and every further call returns the
end-marker; exactly the offsets 0, 20, 40 are fetched. -/
theorem end_to_end_scenario :
    ∀ (n : Nat),
      baseRun scenarioFetcher (nilFilter Nat) 2 (41 + n) (initBase Nat) =
        some ((List.range' 0 40).map some ++ List.replicate (n + 1) none,
          ⟨40, none, 20, true⟩, [0, 20, 40]) := by
  intro n
  have h41 : baseRun scenarioFetcher (nilFilter Nat) 2 41 (initBase Nat) =
      some ((List.range' 0 40).map some ++ [none], ⟨40, none, 20, true⟩,
        [0, 20, 40]) := by decide
  have hdone : (⟨40, none, 20, true⟩ : BaseState Nat).done = true := rfl
  rw [baseRun_add scenarioFetcher (nilFilter Nat) 2 41 n (initBase Nat)]
  simp only [h41, baseRun_of_done scenarioFetcher (nilFilter Nat) 2 n _ hdone]
  simp [List.append_assoc, List.replicate_succ]

/-! ## C9: Jellyfin filter translation -/

/-- The album filter options record (`mediaprovider.AlbumFilterOptions`):
the fields read and written by `jfFilterFromFilter`. -/
structure AlbumFilterOptions where
  ExcludeUnfavorited : Bool
  MinYear : Int
  MaxYear : Int
  Genres : List String
deriving Repr, DecidableEq

/-- The native Jellyfin filter (`jellyfin.Filter`), zero-valued unless
set: favorite flag, year range, genre list. -/
structure JfFilter where
  Favorite : Bool
  YearRange : Int × Int
  Genres : List String
deriving Repr, DecidableEq

/-- `jfFilterFromFilter` (provider file, lines 166-195), transcribed over
the options record.  The Go code first calls `filter.Clone()` and mutates
only the clone's options (line 173); value semantics of the embedding
model exactly that, so the caller's record is never changed.  `Clone`,
`Options` and `SetOptions` themselves are not under `src/` and are
modelled from the spec as a plain copy and a get/set round-trip of the
options record.  `currentYear` stands for `time.Now().Year()`. -/
def jfFilterFromFilter (currentYear : Int) (filter : AlbumFilterOptions) :
    JfFilter × AlbumFilterOptions :=
  let filterOptions := filter
  let jf0 : JfFilter := { Favorite := false, YearRange := (0, 0), Genres := [] }
  let p1 :=
    if filterOptions.ExcludeUnfavorited then
      ({ jf0 with Favorite := true }, { filterOptions with ExcludeUnfavorited := false })
    else (jf0, filterOptions)
  let p2 :=
    if 0 < p1.2.MinYear ∧ 0 < p1.2.MaxYear then
      ({ p1.1 with YearRange := (p1.2.MinYear, p1.2.MaxYear) },
       { p1.2 with MinYear := 0, MaxYear := 0 })
    else if 0 < p1.2.MinYear then
      ({ p1.1 with YearRange := (p1.2.MinYear, currentYear) },
       { p1.2 with MinYear := 0, MaxYear := 0 })
    else if 0 < p1.2.MaxYear then
      ({ p1.1 with YearRange := ((1900 : Int), p1.2.MaxYear) },
       { p1.2 with MinYear := 0, MaxYear := 0 })
    else p1
  ({ p2.1 with Genres := p2.2.Genres }, { p2.2 with Genres := [] })

/-- **C9**: translating a filter with `MinYear = 2000, MaxYear = 0`
produces the native year range `[2000, currentYear]` and a modified copy
with `MinYear = MaxYear = 0`, while the caller's record still carries
`MinYear = 2000` (the translation reads a clone and returns a separate
copy); symmetrically, `MaxYear > 0` with `MinYear = 0` synthesizes the
lower bound 1900. -/
theorem filter_translation_year_range :
    (∀ (y : Int) (opts : AlbumFilterOptions),
       opts.MinYear = 2000 → opts.MaxYear = 0 →
       (jfFilterFromFilter y opts).1.YearRange = (2000, y) ∧
       (jfFilterFromFilter y opts).2.MinYear = 0 ∧
       (jfFilterFromFilter y opts).2.MaxYear = 0 ∧
       opts.MinYear = 2000) ∧
    (∀ (y : Int) (opts : AlbumFilterOptions),
       0 < opts.MaxYear → opts.MinYear = 0 →
       (jfFilterFromFilter y opts).1.YearRange = (1900, opts.MaxYear) ∧
       (jfFilterFromFilter y opts).2.MinYear = 0 ∧
       (jfFilterFromFilter y opts).2.MaxYear = 0) := by
  constructor
  · intro y opts hmin hmax
    obtain ⟨e, mn, mx, g⟩ := opts
    simp only [AlbumFilterOptions.MinYear, AlbumFilterOptions.MaxYear] at hmin hmax
    subst hmin hmax
    cases e <;> simp [jfFilterFromFilter]
  · intro y opts hmax hmin
    obtain ⟨e, mn, mx, g⟩ := opts
    simp only [AlbumFilterOptions.MinYear, AlbumFilterOptions.MaxYear] at hmin hmax
    subst hmin
    cases e <;> simp [jfFilterFromFilter, hmax]

/-- Witness for C9 at concrete inputs (`currentYear = 2026`). -/
theorem filter_translation_year_range_witness :
    ((jfFilterFromFilter 2026 ⟨false, 2000, 0, []⟩).1.YearRange = (2000, 2026) ∧
     (jfFilterFromFilter 2026 ⟨false, 2000, 0, []⟩).2.MinYear = 0 ∧
     (jfFilterFromFilter 2026 ⟨false, 2000, 0, []⟩).2.MaxYear = 0 ∧
     (⟨false, 2000, 0, []⟩ : AlbumFilterOptions).MinYear = 2000) ∧
    ((jfFilterFromFilter 2026 ⟨true, 0, 1990, []⟩).1.YearRange = (1900, 1990) ∧
     (jfFilterFromFilter 2026 ⟨true, 0, 1990, []⟩).2.MinYear = 0 ∧
     (jfFilterFromFilter 2026 ⟨true, 0, 1990, []⟩).2.MaxYear = 0) := by
  constructor
  · exact filter_translation_year_range.1 2026 ⟨false, 2000, 0, []⟩ rfl rfl
  · have h := filter_translation_year_range.2 2026 ⟨true, 0, 1990, []⟩
      (by norm_num) rfl
    simpa using h

/-! ## C5: filter correctness -/

/-- The unread part of the prefetch buffer: the items that later `Next()`
calls will serve before fetching again. -/
def BaseState.unread {M : Type} (s : BaseState M) : List M :=
  (s.prefetched.getD []).drop s.prefetchedPos

/-- All items of the pages the fetcher returned at the given call
offsets, in fetch order. -/
def pagesAt {M : Type} (f : Nat → Nat → FetchResult M) (limit : Nat)
    (calls : List Nat) : List M :=
  (calls.map (fun o => pageItems (f o limit))).flatten

theorem drop_cons_of_get? {M : Type} (l : List M) (pos : Nat) (a : M)
    (h : l.get? pos = some a) : l.drop pos = a :: l.drop (pos + 1) := by
  rw [List.get?_eq_getElem?] at h
  have hlt : pos < l.length := by
    by_contra hh
    push_neg at hh
    rw [List.getElem?_eq_none hh] at h
    cases h
  rw [List.getElem?_eq_getElem hlt] at h
  rw [List.drop_eq_getElem_cons hlt]
  simp only [Option.some.injEq] at h
  rw [h]

theorem mem_of_get? {M : Type} (l : List M) (pos : Nat) (a : M)
    (h : l.get? pos = some a) : a ∈ l.drop pos := by
  rw [drop_cons_of_get? l pos a h]
  exact List.mem_cons_self a _

theorem baseFetchLoop_matches {M : Type} (f : Nat → Nat → FetchResult M)
    (flt : Filter M) (hnil : flt.IsNil = false) :
    ∀ (fuel : Nat) (s : BaseState M) (r : Option M) (s' : BaseState M) (c : List Nat),
      (∀ a, a ∈ s.unread → flt.Matches a = true) →
      baseFetchLoop f flt fuel s = some (r, s', c) →
      (∀ a, r = some a → flt.Matches a = true) ∧
      (∀ a, a ∈ s'.unread → flt.Matches a = true) := by
  intro fuel
  induction fuel with
  | zero => intro s r s' c _ h; simp [baseFetchLoop] at h
  | succ n ih =>
    intro s r s' c hs h
    simp only [baseFetchLoop] at h
    split at h
    · rw [Option.some.injEq, Prod.mk.injEq, Prod.mk.injEq] at h
      obtain ⟨hr, hst, -⟩ := h
      subst hr hst
      exact ⟨fun a ha => Option.noConfusion ha, hs⟩
    · split at h
      · split at h
        · exact absurd h (by simp)
        · next r0 s2 calls heq2 =>
          rw [Option.some.injEq, Prod.mk.injEq, Prod.mk.injEq] at h
          obtain ⟨hr, hst, -⟩ := h
          subst hr hst
          exact ih _ _ _ _ (by simp [BaseState.unread]) heq2
      · next a rest heq =>
        rw [Option.some.injEq, Prod.mk.injEq, Prod.mk.injEq] at h
        obtain ⟨hr, hst, -⟩ := h
        subst hr hst
        rw [applyFilter, hnil] at heq
        simp only [Bool.false_eq_true, if_false, FilterSlice] at heq
        constructor
        · intro b hb
          rw [Option.some.injEq] at hb
          subst hb
          have ham : a ∈ List.filter flt.Matches (pageItems (f s.serverPos 20)) := by
            rw [heq]; exact List.mem_cons_self a rest
          exact (List.mem_filter.mp ham).2
        · intro b hb
          simp only [BaseState.unread, Option.getD] at hb
          have hbm : b ∈ List.filter flt.Matches (pageItems (f s.serverPos 20)) := by
            rw [heq]
            exact List.mem_cons_of_mem a (by simpa using hb)
          exact (List.mem_filter.mp hbm).2

theorem baseNext_matches {M : Type} (f : Nat → Nat → FetchResult M)
    (flt : Filter M) (hnil : flt.IsNil = false) (fuel : Nat) (s : BaseState M)
    (r : Option M) (s' : BaseState M) (c : List Nat)
    (hs : ∀ a, a ∈ s.unread → flt.Matches a = true)
    (h : baseNext f flt fuel s = some (r, s', c)) :
    (∀ a, r = some a → flt.Matches a = true) ∧
    (∀ a, a ∈ s'.unread → flt.Matches a = true) := by
  unfold baseNext at h
  split at h
  · rw [Option.some.injEq, Prod.mk.injEq, Prod.mk.injEq] at h
    obtain ⟨hr, hst, -⟩ := h
    subst hr hst
    exact ⟨fun a ha => Option.noConfusion ha, hs⟩
  · split at h
    · next l hl =>
      split at h
      · next a ha =>
        rw [Option.some.injEq, Prod.mk.injEq, Prod.mk.injEq] at h
        obtain ⟨hr, hst, -⟩ := h
        subst hr hst
        have hmem : a ∈ s.unread := by
          rw [BaseState.unread, hl]
          exact mem_of_get? l s.prefetchedPos a ha
        refine ⟨fun b hb => ?_, fun b hb => ?_⟩
        · rw [Option.some.injEq] at hb
          subst hb
          exact hs a hmem
        · apply hs
          rw [BaseState.unread, hl] at hb ⊢
          simp only [Option.getD] at hb ⊢
          have hb2 : b ∈ (l.drop s.prefetchedPos).drop 1 := by
            rw [List.drop_drop]
            exact hb
          exact List.mem_of_mem_drop hb2
      · exact baseFetchLoop_matches f flt hnil fuel _ r s' c
          (by simp [BaseState.unread]) h
    · exact baseFetchLoop_matches f flt hnil fuel _ r s' c
        (by simpa [BaseState.unread] using hs) h

theorem baseRun_matches {M : Type} (f : Nat → Nat → FetchResult M)
    (flt : Filter M) (hnil : flt.IsNil = false) (fuel : Nat) :
    ∀ (n : Nat) (s : BaseState M) (outs : List (Option M)) (s' : BaseState M)
      (cs : List Nat),
      (∀ a, a ∈ s.unread → flt.Matches a = true) →
      baseRun f flt fuel n s = some (outs, s', cs) →
      (∀ a, some a ∈ outs → flt.Matches a = true) ∧
      (∀ a, a ∈ s'.unread → flt.Matches a = true) := by
  intro n
  induction n with
  | zero =>
    intro s outs s' cs hs h
    simp only [baseRun, Option.some.injEq, Prod.mk.injEq] at h
    obtain ⟨ho, hst, -⟩ := h
    subst hst
    rw [← ho]
    exact ⟨fun a ha => absurd ha (List.not_mem_nil _), hs⟩
  | succ k ih =>
    intro s outs s' cs hs h
    simp only [baseRun] at h
    split at h
    · exact Option.noConfusion h
    · next r s1 c hnx =>
      split at h
      · exact Option.noConfusion h
      · next rs s2 cs1 hrun =>
        rw [Option.some.injEq, Prod.mk.injEq, Prod.mk.injEq] at h
        obtain ⟨ho, hst, -⟩ := h
        subst hst
        obtain ⟨h1, h2⟩ := baseNext_matches f flt hnil fuel s r s1 c hs hnx
        obtain ⟨h3, h4⟩ := ih s1 rs s2 cs1 h2 hrun
        refine ⟨fun a ha => ?_, h4⟩
        rw [← ho] at ha
        rcases List.mem_cons.mp ha with ha | ha
        · exact h1 a ha.symm
        · exact h3 a ha

theorem baseFetchLoop_passthrough {M : Type} (f : Nat → Nat → FetchResult M)
    (flt : Filter M) (hnil : flt.IsNil = true) :
    ∀ (fuel : Nat) (s : BaseState M) (r : Option M) (s' : BaseState M) (c : List Nat),
      s.unread = [] → s.done = false →
      baseFetchLoop f flt fuel s = some (r, s', c) →
      r.toList ++ s'.unread = pagesAt f 20 c ∧
      (s'.done = true → s'.unread = []) := by
  intro fuel
  induction fuel with
  | zero => intro s r s' c _ _ h; simp [baseFetchLoop] at h
  | succ n ih =>
    intro s r s' c hu hd h
    simp only [baseFetchLoop] at h
    split at h
    · next hemp =>
      rw [Option.some.injEq, Prod.mk.injEq, Prod.mk.injEq] at h
      obtain ⟨hr, hst, hc⟩ := h
      subst hr hst
      rw [← hc]
      have hitems : pageItems (f s.serverPos 20) = [] := List.isEmpty_iff.mp hemp
      constructor
      · show s.unread = pagesAt f 20 [s.serverPos]
        rw [hu]
        simp [pagesAt, hitems]
      · intro _
        exact hu
    · next hemp =>
      split at h
      · next heq =>
        rw [applyFilter, hnil, if_pos rfl] at heq
        exact absurd heq (by simpa using hemp)
      · next a rest heq =>
        rw [applyFilter, hnil, if_pos rfl] at heq
        rw [Option.some.injEq, Prod.mk.injEq, Prod.mk.injEq] at h
        obtain ⟨hr, hst, hc⟩ := h
        subst hr hst
        rw [← hc]
        constructor
        · simp [BaseState.unread, pagesAt, heq]
        · intro hdd
          simp [hd] at hdd

theorem baseNext_passthrough {M : Type} (f : Nat → Nat → FetchResult M)
    (flt : Filter M) (hnil : flt.IsNil = true) (fuel : Nat) (s : BaseState M)
    (r : Option M) (s' : BaseState M) (c : List Nat)
    (hwf : s.done = true → s.unread = [])
    (h : baseNext f flt fuel s = some (r, s', c)) :
    r.toList ++ s'.unread = s.unread ++ pagesAt f 20 c ∧
    (s'.done = true → s'.unread = []) := by
  unfold baseNext at h
  split at h
  · next hd =>
    rw [Option.some.injEq, Prod.mk.injEq, Prod.mk.injEq] at h
    obtain ⟨hr, hst, hc⟩ := h
    subst hr hst
    rw [← hc]
    simp [pagesAt, hwf hd]
  · next hd =>
    rw [Bool.not_eq_true] at hd
    split at h
    · next l hl =>
      split at h
      · next a ha =>
        rw [Option.some.injEq, Prod.mk.injEq, Prod.mk.injEq] at h
        obtain ⟨hr, hst, hc⟩ := h
        subst hr hst
        rw [← hc]
        constructor
        · show a :: (s.prefetched.getD []).drop (s.prefetchedPos + 1) =
            s.unread ++ pagesAt f 20 []
          rw [BaseState.unread, hl]
          simp only [Option.getD, pagesAt, List.map_nil, List.flatten_nil,
            List.append_nil]
          exact (drop_cons_of_get? l s.prefetchedPos a ha).symm
        · intro hdd
          rw [show ({ s with prefetchedPos := s.prefetchedPos + 1 } : BaseState M).done
              = s.done from rfl, hd] at hdd
          cases hdd
      · next ha =>
        have hu : ({ s with prefetched := none } : BaseState M).unread = [] := by
          simp [BaseState.unread]
        have := baseFetchLoop_passthrough f flt hnil fuel _ r s' c hu hd h
        have hsu : s.unread = [] := by
          rw [BaseState.unread, hl]
          simp only [Option.getD]
          rw [List.get?_eq_getElem?] at ha
          apply List.drop_eq_nil_of_le
          by_contra hh
          push_neg at hh
          rw [List.getElem?_eq_getElem hh] at ha
          cases ha
        rw [hsu]
        simpa using this
    · next hl =>
      have hsu : s.unread = [] := by simp [BaseState.unread, hl]
      have := baseFetchLoop_passthrough f flt hnil fuel s r s' c hsu hd h
      rw [hsu]
      simpa using this

theorem baseRun_passthrough {M : Type} (f : Nat → Nat → FetchResult M)
    (flt : Filter M) (hnil : flt.IsNil = true) (fuel : Nat) :
    ∀ (n : Nat) (s : BaseState M) (outs : List (Option M)) (s' : BaseState M)
      (cs : List Nat),
      (s.done = true → s.unread = []) →
      baseRun f flt fuel n s = some (outs, s', cs) →
      outs.filterMap id ++ s'.unread = s.unread ++ pagesAt f 20 cs ∧
      (s'.done = true → s'.unread = []) := by
  intro n
  induction n with
  | zero =>
    intro s outs s' cs hwf h
    simp only [baseRun, Option.some.injEq, Prod.mk.injEq] at h
    obtain ⟨ho, hst, hc⟩ := h
    subst hst
    rw [← ho, ← hc]
    simp [pagesAt]
    exact hwf
  | succ k ih =>
    intro s outs s' cs hwf h
    simp only [baseRun] at h
    split at h
    · exact Option.noConfusion h
    · next r s1 c hnx =>
      split at h
      · exact Option.noConfusion h
      · next rs s2 cs1 hrun =>
        rw [Option.some.injEq, Prod.mk.injEq, Prod.mk.injEq] at h
        obtain ⟨ho, hst, hc⟩ := h
        subst hst
        obtain ⟨h1, h2⟩ := baseNext_passthrough f flt hnil fuel s r s1 c hwf hnx
        obtain ⟨h3, h4⟩ := ih s1 rs s2 cs1 h2 hrun
        refine ⟨?_, h4⟩
        rw [← ho, ← hc]
        have hfm : (r :: rs).filterMap id = r.toList ++ rs.filterMap id := by
          cases r <;> simp
        rw [hfm, List.append_assoc, h3, ← List.append_assoc, h1,
          List.append_assoc]
        congr 1
        simp [pagesAt]

/-- **C5**: for every run of the generic iterator with a filter whose
`IsNil` is false, every non-nil item returned by `Next()` satisfies
`filter.Matches(item) = true`; and with a nil filter (`IsNil` true, as
`nilFilter` used for track iteration is), every item returned by the
fetcher is passed through to the caller unfiltered — the items served so
far followed by the still-unread buffer are exactly the fetched pages'
items in order, so nothing is dropped, and a finished run has served
exactly all fetched items. -/
theorem filter_correctness :
    (∀ (M : Type) (f : Nat → Nat → FetchResult M) (flt : Filter M)
        (fuel n : Nat) (outs : List (Option M)) (s' : BaseState M) (cs : List Nat),
        flt.IsNil = false →
        baseRun f flt fuel n (initBase M) = some (outs, s', cs) →
        ∀ a, some a ∈ outs → flt.Matches a = true) ∧
    (∀ (M : Type) (f : Nat → Nat → FetchResult M) (flt : Filter M)
        (fuel n : Nat) (outs : List (Option M)) (s' : BaseState M) (cs : List Nat),
        flt.IsNil = true →
        baseRun f flt fuel n (initBase M) = some (outs, s', cs) →
        outs.filterMap id ++ s'.unread = pagesAt f 20 cs ∧
        (s'.done = true → outs.filterMap id = pagesAt f 20 cs)) ∧
    (∀ (M : Type), (nilFilter M).IsNil = true ∧
        ∀ (a : M), (nilFilter M).Matches a = true) := by
  refine ⟨?_, ?_, ?_⟩
  · intro M f flt fuel n outs s' cs hnil h
    exact (baseRun_matches f flt hnil fuel n (initBase M) outs s' cs
      (by simp [initBase, BaseState.unread]) h).1
  · intro M f flt fuel n outs s' cs hnil h
    have hwf : (initBase M).done = true → (initBase M).unread = [] := by
      intro hdd; cases hdd
    obtain ⟨h1, h2⟩ := baseRun_passthrough f flt hnil fuel n (initBase M) outs s' cs hwf h
    have hu : (initBase M).unread = [] := by simp [initBase, BaseState.unread]
    rw [hu] at h1
    simp only [List.nil_append] at h1
    refine ⟨h1, fun hdd => ?_⟩
    rw [← h1, h2 hdd, List.append_nil]
  · intro M
    exact ⟨rfl, fun a => rfl⟩

/-- Witness for C5 at concrete inputs: an even-number filter over pages
`[1, 3]` and `[2, 5, 4]`, and the nil filter over the same pages. -/
theorem filter_correctness_witness :
    (∀ a, some a ∈ [some 2, some 4, none] → (a % 2 == 0) = true) ∧
    ([some 1, some 3, some 2, some 5].filterMap id ++
        (⟨5, some [2, 5, 4], 2, false⟩ : BaseState Nat).unread =
      pagesAt (fun o _ => if o = 0 then FetchResult.ok [1, 3]
        else if o = 2 then FetchResult.ok [2, 5, 4] else FetchResult.ok [])
        20 [0, 2]) := by
  constructor
  · intro a ha
    exact filter_correctness.1 Nat
      (fun o _ => if o = 0 then FetchResult.ok [1, 3]
        else if o = 2 then FetchResult.ok [2, 5, 4] else FetchResult.ok [])
      ⟨false, fun n => n % 2 == 0⟩ 3 3 [some 2, some 4, none]
      ⟨5, none, 2, true⟩ [0, 2, 5] rfl (by decide) a ha
  · exact (filter_correctness.2.1 Nat
      (fun o _ => if o = 0 then FetchResult.ok [1, 3]
        else if o = 2 then FetchResult.ok [2, 5, 4] else FetchResult.ok [])
      (nilFilter Nat) 3 4 [some 1, some 3, some 2, some 5]
      ⟨5, some [2, 5, 4], 2, false⟩ [0, 2] rfl (by decide)).1

/-! ## C6: no false exhaustion on an all-filtered page -/

theorem baseFetchLoop_step_empty {M : Type} (f : Nat → Nat → FetchResult M)
    (flt : Filter M) (fuel : Nat) (s : BaseState M)
    (hp : pageItems (f s.serverPos 20) = []) :
    baseFetchLoop f flt (fuel + 1) s =
      some (none, { s with done := true }, [s.serverPos]) := by
  simp only [baseFetchLoop, hp]
  rfl

theorem baseFetchLoop_step_filtered {M : Type} (f : Nat → Nat → FetchResult M)
    (flt : Filter M) (fuel : Nat) (s : BaseState M) (p : List M)
    (hp : pageItems (f s.serverPos 20) = p) (hne : p.isEmpty = false)
    (hfil : applyFilter flt p = []) :
    baseFetchLoop f flt (fuel + 1) s =
      (match baseFetchLoop f flt fuel
          { s with serverPos := s.serverPos + p.length, prefetched := some [] } with
       | none => none
       | some (r, s2, calls) => some (r, s2, s.serverPos :: calls)) := by
  simp only [baseFetchLoop, hp, hne, hfil, Bool.false_eq_true, if_false]

theorem baseFetchLoop_step_hit {M : Type} (f : Nat → Nat → FetchResult M)
    (flt : Filter M) (fuel : Nat) (s : BaseState M) (p : List M) (a : M)
    (rest : List M)
    (hp : pageItems (f s.serverPos 20) = p) (hne : p.isEmpty = false)
    (hfil : applyFilter flt p = a :: rest) :
    baseFetchLoop f flt (fuel + 1) s =
      some (some a,
        { s with
            serverPos := s.serverPos + p.length,
            prefetched := some (a :: rest),
            prefetchedPos := 1 },
        [s.serverPos]) := by
  simp only [baseFetchLoop, hp, hne, hfil, Bool.false_eq_true, if_false]

theorem baseNext_serve {M : Type} (f : Nat → Nat → FetchResult M) (flt : Filter M)
    (fuel : Nat) (sp pos : Nat) (l : List M) (a : M)
    (hget : l.get? pos = some a) :
    baseNext f flt fuel ⟨sp, some l, pos, false⟩ =
      some (some a, ⟨sp, some l, pos + 1, false⟩, []) := by
  have hget2 : l[pos]? = some a := by
    rw [← List.get?_eq_getElem?]
    exact hget
  unfold baseNext
  simp [hget, hget2]

/-- Draining the buffer: with `pos + n = l.length`, the next `n` calls
serve `l.drop pos` one item at a time without fetching. -/
theorem baseRun_drain {M : Type} (f : Nat → Nat → FetchResult M) (flt : Filter M)
    (fuel : Nat) (l : List M) (sp : Nat) :
    ∀ (n pos : Nat), pos + n = l.length →
      baseRun f flt fuel n ⟨sp, some l, pos, false⟩ =
        some ((l.drop pos).map some, ⟨sp, some l, l.length, false⟩, []) := by
  intro n
  induction n with
  | zero =>
    intro pos hlen
    rw [Nat.add_zero] at hlen
    subst hlen
    rw [List.drop_eq_nil_of_le (Nat.le_refl _)]
    rfl
  | succ n ih =>
    intro pos hlen
    have hlt : pos < l.length := by omega
    have hget : l.get? pos = some l[pos] := by
      rw [List.get?_eq_getElem?, List.getElem?_eq_getElem hlt]
    have hserve := baseNext_serve f flt fuel sp pos l _ hget
    have hih := ih (pos + 1) (by omega)
    simp only [baseRun]
    rw [hserve]
    dsimp only
    rw [hih]
    dsimp only
    rw [List.drop_eq_getElem_cons hlt, List.map_cons]
    rfl

/-- **C6**: the generic iterator never signals a false exhaustion because
of an all-filtered page.  With a non-nil filter, a first page `p1` that
the filter removes entirely, a second page `p2` whose matches are
`a :: ms`, and an empty third page, the very first `Next()` call fetches
past the all-filtered page (offsets 0 and `|p1|` in one call) and
returns the first match; the run then yields all of `p2`'s matches
before the end-marker, and only then fetches offset `|p1| + |p2|` and
reports exhaustion. -/
theorem no_false_done_on_filtered_page :
    ∀ (M : Type) (f : Nat → Nat → FetchResult M) (flt : Filter M)
      (p1 p2 : List M) (a : M) (ms : List M) (fuel k : Nat),
      flt.IsNil = false →
      pageItems (f 0 20) = p1 → p1 ≠ [] →
      FilterSlice flt.Matches p1 = [] →
      pageItems (f p1.length 20) = p2 →
      FilterSlice flt.Matches p2 = a :: ms →
      pageItems (f (p1.length + p2.length) 20) = [] →
      baseRun f flt (fuel + 2) ((a :: ms).length + 1 + k) (initBase M) =
        some ((a :: ms).map some ++ List.replicate (k + 1) none,
          ⟨p1.length + p2.length, none, (a :: ms).length, true⟩,
          [0, p1.length, p1.length + p2.length]) := by
  intro M f flt p1 p2 a ms fuel k hnil hp1 hp1ne hfil1 hp2 hfil2 hp3
  have hp1e : p1.isEmpty = false := by
    rcases p1 with _ | ⟨x, xs⟩
    · exact absurd rfl hp1ne
    · rfl
  have hp2e : p2.isEmpty = false := by
    rcases p2 with _ | ⟨x, xs⟩
    · exact absurd hfil2 (by simp [FilterSlice])
    · rfl
  have hfilA : applyFilter flt p1 = [] := by
    rw [applyFilter, hnil]
    simpa using hfil1
  have hfilB : applyFilter flt p2 = a :: ms := by
    rw [applyFilter, hnil]
    simpa using hfil2
  have h1 : baseNext f flt (fuel + 2) (initBase M) =
      some (some a, ⟨p1.length + p2.length, some (a :: ms), 1, false⟩,
        [0, p1.length]) := by
    have e0 : baseNext f flt (fuel + 2) (initBase M) =
        baseFetchLoop f flt (fuel + 2) ⟨0, none, 0, false⟩ := rfl
    rw [e0, show fuel + 2 = fuel + 1 + 1 from rfl,
      baseFetchLoop_step_filtered f flt (fuel + 1) ⟨0, none, 0, false⟩ p1
        hp1 hp1e hfilA]
    dsimp only
    rw [Nat.zero_add,
      baseFetchLoop_step_hit f flt fuel ⟨p1.length, some [], 0, false⟩ p2 a ms
        hp2 hp2e hfilB]
  have hstep1 : baseRun f flt (fuel + 2) 1 (initBase M) =
      some ([some a], ⟨p1.length + p2.length, some (a :: ms), 1, false⟩,
        [0, p1.length]) := by
    simp [baseRun, h1]
  have hdrain : baseRun f flt (fuel + 2) ms.length
      ⟨p1.length + p2.length, some (a :: ms), 1, false⟩ =
      some (ms.map some,
        ⟨p1.length + p2.length, some (a :: ms), (a :: ms).length, false⟩, []) := by
    have hd := baseRun_drain f flt (fuel + 2) (a :: ms) (p1.length + p2.length)
      ms.length 1 (by rw [List.length_cons]; omega)
    simpa using hd
  have hlast : baseNext f flt (fuel + 2)
      ⟨p1.length + p2.length, some (a :: ms), (a :: ms).length, false⟩ =
      some (none, ⟨p1.length + p2.length, none, (a :: ms).length, true⟩,
        [p1.length + p2.length]) := by
    have hge : (a :: ms)[(a :: ms).length]? = (none : Option M) := by
      exact List.getElem?_eq_none (Nat.le_refl _)
    have hge2 : (a :: ms).get? (a :: ms).length = (none : Option M) := by
      rw [List.get?_eq_getElem?]
      exact hge
    have e0 : baseNext f flt (fuel + 2)
        ⟨p1.length + p2.length, some (a :: ms), (a :: ms).length, false⟩ =
        baseFetchLoop f flt (fuel + 2)
          ⟨p1.length + p2.length, none, (a :: ms).length, false⟩ := by
      unfold baseNext
      simp [hge, hge2]
    rw [e0, show fuel + 2 = fuel + 1 + 1 from rfl,
      baseFetchLoop_step_empty f flt (fuel + 1)
        ⟨p1.length + p2.length, none, (a :: ms).length, false⟩ hp3]
  have hrunlast : baseRun f flt (fuel + 2) (k + 1)
      ⟨p1.length + p2.length, some (a :: ms), (a :: ms).length, false⟩ =
      some (none :: List.replicate k none,
        ⟨p1.length + p2.length, none, (a :: ms).length, true⟩,
        [p1.length + p2.length]) := by
    simp only [baseRun, hlast,
      baseRun_of_done f flt (fuel + 2) k
        ⟨p1.length + p2.length, none, (a :: ms).length, true⟩ rfl]
    simp
  have hn : (a :: ms).length + 1 + k = 1 + (ms.length + (k + 1)) := by
    rw [List.length_cons]
    omega
  rw [hn, baseRun_add f flt (fuel + 2) 1 (ms.length + (k + 1)) (initBase M),
    hstep1]
  dsimp only
  rw [baseRun_add f flt (fuel + 2) ms.length (k + 1)
    ⟨p1.length + p2.length, some (a :: ms), 1, false⟩, hdrain]
  dsimp only
  rw [hrunlast]
  dsimp only
  simp [List.replicate_succ]

/-- Witness for C6 at concrete inputs: pages `[1, 3]` (all odd, removed
by the even filter), `[2, 5, 4]` (matches `[2, 4]`), then an empty
page. -/
theorem no_false_done_on_filtered_page_witness :
    baseRun (fun o _ => if o = 0 then FetchResult.ok [1, 3]
        else if o = 2 then FetchResult.ok [2, 5, 4] else FetchResult.ok [])
      ⟨false, fun n => n % 2 == 0⟩ 2 4 (initBase Nat) =
      some ([some 2, some 4, none, none], ⟨5, none, 2, true⟩, [0, 2, 5]) := by
  have h := no_false_done_on_filtered_page Nat
    (fun o _ => if o = 0 then FetchResult.ok [1, 3]
      else if o = 2 then FetchResult.ok [2, 5, 4] else FetchResult.ok [])
    ⟨false, fun n => n % 2 == 0⟩ [1, 3] [2, 5, 4] 2 [4] 0 1
    rfl rfl (by simp) (by decide) rfl (by decide) rfl
  simpa using h

/-! ## C7: offset monotonicity -/

/-- Length of the page the fetcher returns at `(o, limit)`, before
client-side filtering. -/
def pageLenAt {M : Type} (f : Nat → Nat → FetchResult M) (limit o : Nat) : Nat :=
  (pageItems (f o limit)).length

/-- The call offsets chain from `st`: the first fetch is issued exactly at
`st`, and each later fetch exactly at the previous offset plus the length
of the page the previous fetch returned. -/
def chainedFrom {M : Type} (f : Nat → Nat → FetchResult M) (limit : Nat) :
    Nat → List Nat → Prop
  | _, [] => True
  | st, o :: rest => o = st ∧ chainedFrom f limit (o + pageLenAt f limit o) rest

/-- The server position after the chained calls. -/
def chainEnd {M : Type} (f : Nat → Nat → FetchResult M) (limit : Nat) :
    Nat → List Nat → Nat
  | st, [] => st
  | _, o :: rest => chainEnd f limit (o + pageLenAt f limit o) rest

theorem chainedFrom_append {M : Type} (f : Nat → Nat → FetchResult M) (limit : Nat) :
    ∀ (c1 c2 : List Nat) (st : Nat), chainedFrom f limit st c1 →
      chainedFrom f limit (chainEnd f limit st c1) c2 →
      chainedFrom f limit st (c1 ++ c2) := by
  intro c1
  induction c1 with
  | nil => intro c2 st _ h2; simpa using h2
  | cons o rest ih =>
    intro c2 st h1 h2
    obtain ⟨ho, hrest⟩ := h1
    exact ⟨ho, ih c2 (o + pageLenAt f limit o) hrest h2⟩

theorem chainEnd_append {M : Type} (f : Nat → Nat → FetchResult M) (limit : Nat) :
    ∀ (c1 c2 : List Nat) (st : Nat),
      chainEnd f limit st (c1 ++ c2) = chainEnd f limit (chainEnd f limit st c1) c2 := by
  intro c1
  induction c1 with
  | nil => intro c2 st; rfl
  | cons o rest ih => intro c2 st; exact ih c2 (o + pageLenAt f limit o)

/-- A chained call list whose non-final pages are nonempty has strictly
increasing offsets. -/
theorem chainedFrom_strict {M : Type} (f : Nat → Nat → FetchResult M) (limit : Nat) :
    ∀ (c : List Nat) (st : Nat), chainedFrom f limit st c →
      (∀ o ∈ c.dropLast, 0 < pageLenAt f limit o) →
      c.Chain' (· < ·) := by
  intro c
  induction c with
  | nil => intro st _ _; exact List.chain'_nil
  | cons o rest ih =>
    intro st h1 h2
    obtain ⟨ho, hrest⟩ := h1
    cases rest with
    | nil => exact List.chain'_singleton o
    | cons o2 rest2 =>
      have hdl : (o :: o2 :: rest2).dropLast = o :: (o2 :: rest2).dropLast :=
        List.dropLast_cons₂
      have hpos : 0 < pageLenAt f limit o := by
        apply h2 o
        rw [hdl]
        exact List.mem_cons_self o _
      have ho2 : o2 = o + pageLenAt f limit o := hrest.1
      rw [List.chain'_cons]
      refine ⟨by omega, ?_⟩
      apply ih (o + pageLenAt f limit o) hrest
      intro x hx
      apply h2 x
      rw [hdl]
      exact List.mem_cons_of_mem o hx

theorem baseFetchLoop_chain {M : Type} (f : Nat → Nat → FetchResult M)
    (flt : Filter M) :
    ∀ (fuel : Nat) (s : BaseState M) (r : Option M) (s' : BaseState M) (c : List Nat),
      baseFetchLoop f flt fuel s = some (r, s', c) →
      chainedFrom f 20 s.serverPos c ∧
      s'.serverPos = chainEnd f 20 s.serverPos c ∧
      c ≠ [] ∧
      (r = none → (∀ o ∈ c.dropLast, 0 < pageLenAt f 20 o) ∧ s'.done = true) ∧
      (∀ a, r = some a → (∀ o ∈ c, 0 < pageLenAt f 20 o) ∧ s'.done = s.done) := by
  intro fuel
  induction fuel with
  | zero => intro s r s' c h; simp [baseFetchLoop] at h
  | succ n ih =>
    intro s r s' c h
    simp only [baseFetchLoop] at h
    split at h
    · next hemp =>
      rw [Option.some.injEq, Prod.mk.injEq, Prod.mk.injEq] at h
      obtain ⟨hr, hst, hc⟩ := h
      subst hr hst
      rw [← hc]
      have hlen : pageLenAt f 20 s.serverPos = 0 := by
        rw [pageLenAt, List.isEmpty_iff.mp hemp]
        rfl
      refine ⟨⟨rfl, trivial⟩, ?_, by simp, ?_, ?_⟩
      · show s.serverPos = s.serverPos + pageLenAt f 20 s.serverPos
        omega
      · intro _
        exact ⟨by simp, rfl⟩
      · intro a ha
        exact Option.noConfusion ha
    · next hemp =>
      have hpos : 0 < pageLenAt f 20 s.serverPos := by
        rw [pageLenAt]
        cases hpage : pageItems (f s.serverPos 20) with
        | nil => rw [hpage] at hemp; exact absurd rfl hemp
        | cons x xs => simp
      split at h
      · next heq =>
        split at h
        · exact absurd h (by simp)
        · next r0 s2 calls heq2 =>
          rw [Option.some.injEq, Prod.mk.injEq, Prod.mk.injEq] at h
          obtain ⟨hr, hst, hc⟩ := h
          subst hr hst
          rw [← hc]
          obtain ⟨ih1, ih2, ih3, ih4, ih5⟩ := ih _ r0 s2 calls heq2
          refine ⟨⟨rfl, ih1⟩, ih2, by simp, ?_, ?_⟩
          · intro hr0
            obtain ⟨hp, hd⟩ := ih4 hr0
            refine ⟨?_, hd⟩
            intro o ho
            rw [List.dropLast_cons_of_ne_nil ih3] at ho
            rcases List.mem_cons.mp ho with ho | ho
            · rw [ho]; exact hpos
            · exact hp o ho
          · intro a ha
            obtain ⟨hp, hd⟩ := ih5 a ha
            refine ⟨?_, hd⟩
            intro o ho
            rcases List.mem_cons.mp ho with ho | ho
            · rw [ho]; exact hpos
            · exact hp o ho
      · next a rest heq =>
        rw [Option.some.injEq, Prod.mk.injEq, Prod.mk.injEq] at h
        obtain ⟨hr, hst, hc⟩ := h
        subst hr hst
        rw [← hc]
        refine ⟨⟨rfl, trivial⟩, rfl, by simp, ?_, ?_⟩
        · intro hr0
          exact Option.noConfusion hr0
        · intro b hb
          refine ⟨?_, rfl⟩
          intro o ho
          rcases List.mem_cons.mp ho with ho | ho
          · rw [ho]; exact hpos
          · cases ho

theorem baseNext_chain {M : Type} (f : Nat → Nat → FetchResult M) (flt : Filter M)
    (fuel : Nat) (s : BaseState M) (r : Option M) (s' : BaseState M) (c : List Nat)
    (h : baseNext f flt fuel s = some (r, s', c)) :
    chainedFrom f 20 s.serverPos c ∧
    s'.serverPos = chainEnd f 20 s.serverPos c ∧
    (r = none → (∀ o ∈ c.dropLast, 0 < pageLenAt f 20 o) ∧ s'.done = true) ∧
    (∀ a, r = some a → (∀ o ∈ c, 0 < pageLenAt f 20 o) ∧ s'.done = s.done) := by
  unfold baseNext at h
  split at h
  · next hd =>
    rw [Option.some.injEq, Prod.mk.injEq, Prod.mk.injEq] at h
    obtain ⟨hr, hst, hc⟩ := h
    subst hr hst
    rw [← hc]
    exact ⟨trivial, rfl, fun _ => ⟨by simp, hd⟩, fun a ha => Option.noConfusion ha⟩
  · split at h
    · split at h
      · next a ha =>
        rw [Option.some.injEq, Prod.mk.injEq, Prod.mk.injEq] at h
        obtain ⟨hr, hst, hc⟩ := h
        subst hr hst
        rw [← hc]
        exact ⟨trivial, rfl, fun hr0 => Option.noConfusion hr0,
          fun b hb => ⟨by simp, rfl⟩⟩
      · have hch := baseFetchLoop_chain f flt fuel _ r s' c h
        exact ⟨hch.1, hch.2.1, hch.2.2.2.1, hch.2.2.2.2⟩
    · have hch := baseFetchLoop_chain f flt fuel s r s' c h
      exact ⟨hch.1, hch.2.1, hch.2.2.2.1, hch.2.2.2.2⟩

theorem baseRun_chain {M : Type} (f : Nat → Nat → FetchResult M) (flt : Filter M)
    (fuel : Nat) :
    ∀ (n : Nat) (s : BaseState M) (outs : List (Option M)) (s' : BaseState M)
      (cs : List Nat),
      baseRun f flt fuel n s = some (outs, s', cs) →
      chainedFrom f 20 s.serverPos cs ∧
      s'.serverPos = chainEnd f 20 s.serverPos cs ∧
      (∀ o ∈ cs.dropLast, 0 < pageLenAt f 20 o) := by
  intro n
  induction n with
  | zero =>
    intro s outs s' cs h
    simp only [baseRun, Option.some.injEq, Prod.mk.injEq] at h
    obtain ⟨-, hst, hc⟩ := h
    subst hst
    rw [← hc]
    exact ⟨trivial, rfl, by simp⟩
  | succ k ih =>
    intro s outs s' cs h
    simp only [baseRun] at h
    split at h
    · exact Option.noConfusion h
    · next r s1 c hnx =>
      split at h
      · exact Option.noConfusion h
      · next rs s2 cs1 hrun =>
        rw [Option.some.injEq, Prod.mk.injEq, Prod.mk.injEq] at h
        obtain ⟨-, hst, hc⟩ := h
        subst hst
        rw [← hc]
        obtain ⟨hch, hpos2, hp1, hp2⟩ := baseNext_chain f flt fuel s r s1 c hnx
        obtain ⟨ich, ipos, ip⟩ := ih s1 rs s2 cs1 hrun
        rw [hpos2] at ich ipos
        refine ⟨chainedFrom_append f 20 c cs1 s.serverPos hch ich, ?_, ?_⟩
        · rw [chainEnd_append f 20 c cs1 s.serverPos, ipos]
        · cases r with
          | some a =>
            obtain ⟨hap, -⟩ := hp2 a rfl
            intro o ho
            by_cases hcs1 : cs1 = []
            · subst hcs1
              rw [List.append_nil] at ho
              exact hap o (List.dropLast_subset c ho)
            · rw [List.dropLast_append_of_ne_nil c hcs1] at ho
              rcases List.mem_append.mp ho with ho | ho
              · exact hap o ho
              · exact ip o ho
          | none =>
            obtain ⟨hap, hdone⟩ := hp1 rfl
            have hcs1 : cs1 = [] := by
              have := baseRun_of_done f flt fuel k s1 hdone
              rw [this] at hrun
              rw [Option.some.injEq, Prod.mk.injEq, Prod.mk.injEq] at hrun
              exact hrun.2.2.symm
            subst hcs1
            intro o ho
            rw [List.append_nil] at ho
            exact hap o ho

/-- The offsets of the calls that went to the deterministic fetcher. -/
def determOffsets (c : List FetchCall) : List Nat :=
  c.filterMap fun call =>
    match call with
    | .determ o _ => some o
    | .random _ _ => none

theorem determOffsets_append (c1 c2 : List FetchCall) :
    determOffsets (c1 ++ c2) = determOffsets c1 ++ determOffsets c2 := by
  simp [determOffsets]

/-- Combined invariant of one pass of the random iterator's fetch/serve
loop: the deterministic-fetcher offsets chain from the current offset
with batch size 25 and advance it; an end-marker means `done` and all
non-final deterministic pages nonempty; every deterministic call has
limit 25 and every random call is `(0, 25)`; and phase two is absorbing,
with only deterministic calls once in it. -/
theorem randomNextLoop_inv (re : Nat → FetchResult Album)
    (de : Nat → Nat → FetchResult Album) (flt : Filter Album) :
    ∀ (fuel : Nat) (s : RandomState) (r : Option Album) (s' : RandomState)
      (c : List FetchCall),
      randomNextLoop re de flt fuel s = some (r, s', c) →
      chainedFrom de 25 s.offset (determOffsets c) ∧
      s'.offset = chainEnd de 25 s.offset (determOffsets c) ∧
      (r = none → (∀ o ∈ (determOffsets c).dropLast, 0 < pageLenAt de 25 o) ∧
        s'.done = true) ∧
      (∀ a, r = some a → (∀ o ∈ determOffsets c, 0 < pageLenAt de 25 o) ∧
        s'.done = s.done) ∧
      (∀ o lim, FetchCall.determ o lim ∈ c → lim = 25) ∧
      (∀ o lim, FetchCall.random o lim ∈ c → o = 0 ∧ lim = 25) ∧
      (s.phaseTwo = true → s'.phaseTwo = true ∧
        ∀ call ∈ c, ∃ o, call = FetchCall.determ o 25) ∧
      (s'.phaseTwo = false → s.phaseTwo = false) := by
  intro fuel
  induction fuel with
  | zero => intro s r s' c h; simp [randomNextLoop] at h
  | succ n ih =>
    intro s r s' c h
    simp only [randomNextLoop] at h
    split at h
    · split at h
      · -- phase two
        next hpt =>
        split at h
        · -- empty page: terminate
          next hemp =>
          rw [Option.some.injEq, Prod.mk.injEq, Prod.mk.injEq] at h
          obtain ⟨hr, hst, hc⟩ := h
          subst hr hst
          rw [← hc]
          have hlen : pageLenAt de 25 s.offset = 0 := by
            rw [pageLenAt, List.isEmpty_iff.mp hemp]
            rfl
          refine ⟨⟨rfl, trivial⟩, ?_, ?_, ?_, ?_, ?_, ?_, ?_⟩
          · show s.offset = s.offset + pageLenAt de 25 s.offset
            omega
          · intro _
            exact ⟨by simp [determOffsets], rfl⟩
          · intro a ha
            exact Option.noConfusion ha
          · intro o lim hmem
            simp at hmem
            exact hmem.2
          · intro o lim hmem
            rcases List.mem_singleton.mp hmem with hmem
            cases hmem
          · intro _
            refine ⟨hpt, ?_⟩
            intro call hcall
            rcases List.mem_singleton.mp hcall with hcall
            exact ⟨s.offset, hcall⟩
          · intro hq
            exact hq
        · -- nonempty page: process batch and loop
          next hemp =>
          have hpos : 0 < pageLenAt de 25 s.offset := by
            rw [pageLenAt]
            cases hpage : pageItems (de s.offset 25) with
            | nil => rw [hpage] at hemp; exact absurd rfl hemp
            | cons x xs => simp
          split at h
          · exact absurd h (by simp)
          · next r0 s2 calls heq2 =>
            rw [Option.some.injEq, Prod.mk.injEq, Prod.mk.injEq] at h
            obtain ⟨hr, hst, hc⟩ := h
            subst hr hst
            rw [← hc]
            obtain ⟨ih1, ih2, ih3, ih4, ih5, ih6, ih7, ih8⟩ :=
              ih _ r0 s2 calls heq2
            have hdoc : determOffsets (FetchCall.determ s.offset 25 :: calls) =
                s.offset :: determOffsets calls := by
              simp [determOffsets]
            rw [hdoc]
            refine ⟨⟨rfl, ih1⟩, ih2, ?_, ?_, ?_, ?_, ?_, ih8⟩
            · intro hr0
              obtain ⟨hp, hd⟩ := ih3 hr0
              refine ⟨?_, hd⟩
              intro o ho
              cases hdo : determOffsets calls with
              | nil => rw [hdo] at ho; cases ho
              | cons x xs =>
                rw [hdo] at ho
                rw [List.dropLast_cons_of_ne_nil (by simp)] at ho
                rcases List.mem_cons.mp ho with ho | ho
                · rw [ho]; exact hpos
                · rw [hdo] at hp
                  exact hp o ho
            · intro a ha
              obtain ⟨hp, hd⟩ := ih4 a ha
              refine ⟨?_, hd⟩
              intro o ho
              rcases List.mem_cons.mp ho with ho | ho
              · rw [ho]; exact hpos
              · exact hp o ho
            · intro o lim hmem
              rcases List.mem_cons.mp hmem with hmem | hmem
              · cases hmem; rfl
              · exact ih5 o lim hmem
            · intro o lim hmem
              rcases List.mem_cons.mp hmem with hmem | hmem
              · cases hmem
              · exact ih6 o lim hmem
            · intro _
              obtain ⟨hpt2, hcalls⟩ := ih7 hpt
              refine ⟨hpt2, ?_⟩
              intro call hcall
              rcases List.mem_cons.mp hcall with hcall | hcall
              · exact ⟨s.offset, hcall⟩
              · exact hcalls call hcall
      · -- phase one
        next hpt =>
        rw [Bool.not_eq_true] at hpt
        split at h
        · -- transport error: terminate
          rw [Option.some.injEq, Prod.mk.injEq, Prod.mk.injEq] at h
          obtain ⟨hr, hst, hc⟩ := h
          subst hr hst
          rw [← hc]
          refine ⟨trivial, rfl, ?_, ?_, ?_, ?_, ?_, ?_⟩
          · intro _
            exact ⟨by simp [determOffsets], rfl⟩
          · intro a ha
            exact Option.noConfusion ha
          · intro o lim hmem
            rcases List.mem_singleton.mp hmem with hmem
            cases hmem
          · intro o lim hmem
            rcases List.mem_singleton.mp hmem with hmem
            cases hmem
            exact ⟨rfl, rfl⟩
          · intro hcontra
            rw [hpt] at hcontra
            cases hcontra
          · intro _
            exact hpt
        · -- ok batch: process and loop
          next albums hre =>
          split at h
          · exact absurd h (by simp)
          · next r0 s2 calls heq2 =>
            rw [Option.some.injEq, Prod.mk.injEq, Prod.mk.injEq] at h
            obtain ⟨hr, hst, hc⟩ := h
            subst hr hst
            rw [← hc]
            obtain ⟨ih1, ih2, ih3, ih4, ih5, ih6, ih7, ih8⟩ :=
              ih _ r0 s2 calls heq2
            have hdoc : determOffsets (FetchCall.random 0 25 :: calls) =
                determOffsets calls := by
              simp [determOffsets]
            rw [hdoc]
            refine ⟨ih1, ih2, ih3, ih4, ?_, ?_, ?_, ?_⟩
            · intro o lim hmem
              rcases List.mem_cons.mp hmem with hmem | hmem
              · cases hmem
              · exact ih5 o lim hmem
            · intro o lim hmem
              rcases List.mem_cons.mp hmem with hmem | hmem
              · cases hmem; exact ⟨rfl, rfl⟩
              · exact ih6 o lim hmem
            · intro hcontra
              rw [hpt] at hcontra
              cases hcontra
            · intro hpf
              by_cases hsw : 2 * (processRandomBatch flt albums s.albumIDSet
                  s.prefetched 0).2.2 < 15
              · exfalso
                have h7 := ih7 (by simp [hsw])
                rw [h7.1] at hpf
                cases hpf
              · exact hpt
    · -- serve from the prefetch buffer
      next hne =>
      split at h
      · exact Option.noConfusion h
      · next a ha =>
        split at h
        · rw [Option.some.injEq, Prod.mk.injEq, Prod.mk.injEq] at h
          obtain ⟨hr, hst, hc⟩ := h
          subst hr hst
          rw [← hc]
          refine ⟨trivial, rfl, ?_, ?_, ?_, ?_, ?_, ?_⟩
          · intro hr0
            exact Option.noConfusion hr0
          · intro b hb
            exact ⟨by simp [determOffsets], rfl⟩
          · intro o lim hmem
            cases hmem
          · intro o lim hmem
            cases hmem
          · intro hpf
            exact ⟨hpf, by intro call hcall; cases hcall⟩
          · intro hpf
            exact hpf
        · rw [Option.some.injEq, Prod.mk.injEq, Prod.mk.injEq] at h
          obtain ⟨hr, hst, hc⟩ := h
          subst hr hst
          rw [← hc]
          refine ⟨trivial, rfl, ?_, ?_, ?_, ?_, ?_, ?_⟩
          · intro hr0
            exact Option.noConfusion hr0
          · intro b hb
            exact ⟨by simp [determOffsets], rfl⟩
          · intro o lim hmem
            cases hmem
          · intro o lim hmem
            cases hmem
          · intro hpf
            exact ⟨hpf, by intro call hcall; cases hcall⟩
          · intro hpf
            exact hpf

theorem randomNext_inv (re : Nat → FetchResult Album)
    (de : Nat → Nat → FetchResult Album) (flt : Filter Album) (fuel : Nat)
    (s : RandomState) (r : Option Album) (s' : RandomState) (c : List FetchCall)
    (h : randomNext re de flt fuel s = some (r, s', c)) :
    chainedFrom de 25 s.offset (determOffsets c) ∧
    s'.offset = chainEnd de 25 s.offset (determOffsets c) ∧
    (r = none → (∀ o ∈ (determOffsets c).dropLast, 0 < pageLenAt de 25 o) ∧
      s'.done = true) ∧
    (∀ a, r = some a → (∀ o ∈ determOffsets c, 0 < pageLenAt de 25 o) ∧
      s'.done = s.done) ∧
    (∀ o lim, FetchCall.determ o lim ∈ c → lim = 25) ∧
    (∀ o lim, FetchCall.random o lim ∈ c → o = 0 ∧ lim = 25) ∧
    (s.phaseTwo = true → s'.phaseTwo = true ∧
      ∀ call ∈ c, ∃ o, call = FetchCall.determ o 25) := by
  unfold randomNext at h
  split at h
  · next hd =>
    rw [Option.some.injEq, Prod.mk.injEq, Prod.mk.injEq] at h
    obtain ⟨hr, hst, hc⟩ := h
    subst hr hst
    rw [← hc]
    refine ⟨trivial, rfl, fun _ => ⟨by simp [determOffsets], hd⟩,
      fun a ha => Option.noConfusion ha, ?_, ?_, ?_⟩
    · intro o lim hmem
      cases hmem
    · intro o lim hmem
      cases hmem
    · intro hpf
      exact ⟨hpf, by intro call hcall; cases hcall⟩
  · obtain ⟨h1, h2, h3, h4, h5, h6, h7, -⟩ :=
      randomNextLoop_inv re de flt fuel s r s' c h
    exact ⟨h1, h2, h3, h4, h5, h6, h7⟩

theorem randomRun_inv (re : Nat → FetchResult Album)
    (de : Nat → Nat → FetchResult Album) (flt : Filter Album) (fuel : Nat) :
    ∀ (n : Nat) (s : RandomState) (outs : List (Option Album))
      (s' : RandomState) (cs : List FetchCall),
      randomRun re de flt fuel n s = some (outs, s', cs) →
      chainedFrom de 25 s.offset (determOffsets cs) ∧
      s'.offset = chainEnd de 25 s.offset (determOffsets cs) ∧
      (∀ o ∈ (determOffsets cs).dropLast, 0 < pageLenAt de 25 o) ∧
      (∀ o lim, FetchCall.determ o lim ∈ cs → lim = 25) ∧
      (∀ o lim, FetchCall.random o lim ∈ cs → o = 0 ∧ lim = 25) ∧
      (s.phaseTwo = true → s'.phaseTwo = true ∧
        ∀ call ∈ cs, ∃ o, call = FetchCall.determ o 25) := by
  intro n
  induction n with
  | zero =>
    intro s outs s' cs h
    simp only [randomRun, Option.some.injEq, Prod.mk.injEq] at h
    obtain ⟨-, hst, hc⟩ := h
    subst hst
    rw [← hc]
    refine ⟨trivial, rfl, by simp [determOffsets], ?_, ?_, ?_⟩
    · intro o lim hmem
      cases hmem
    · intro o lim hmem
      cases hmem
    · intro hpf
      exact ⟨hpf, by intro call hcall; cases hcall⟩
  | succ k ih =>
    intro s outs s' cs h
    simp only [randomRun] at h
    split at h
    · exact Option.noConfusion h
    · next r s1 c hnx =>
      split at h
      · exact Option.noConfusion h
      · next rs s2 cs1 hrun =>
        rw [Option.some.injEq, Prod.mk.injEq, Prod.mk.injEq] at h
        obtain ⟨-, hst, hc⟩ := h
        subst hst
        rw [← hc]
        obtain ⟨h1, h2, h3, h4, h5, h6, h7⟩ :=
          randomNext_inv re de flt fuel s r s1 c hnx
        obtain ⟨i1, i2, i3, i4, i5, i6⟩ := ih s1 rs s2 cs1 hrun
        rw [h2] at i1 i2
        rw [determOffsets_append]
        refine ⟨chainedFrom_append de 25 _ _ _ h1 i1, ?_, ?_, ?_, ?_, ?_⟩
        · rw [chainEnd_append de 25 _ _ _, i2]
        · cases r with
          | some a =>
            obtain ⟨hap, -⟩ := h4 a rfl
            intro o ho
            by_cases hcs1 : determOffsets cs1 = []
            · rw [hcs1, List.append_nil] at ho
              exact hap o (List.dropLast_subset _ ho)
            · rw [List.dropLast_append_of_ne_nil _ hcs1] at ho
              rcases List.mem_append.mp ho with ho | ho
              · exact hap o ho
              · exact i3 o ho
          | none =>
            obtain ⟨hap, hdone⟩ := h3 rfl
            have hcs1 : cs1 = [] := by
              have hrd := randomRun_of_done re de flt fuel k s1 hdone
              rw [hrd] at hrun
              rw [Option.some.injEq, Prod.mk.injEq, Prod.mk.injEq] at hrun
              exact hrun.2.2.symm
            subst hcs1
            intro o ho
            rw [show determOffsets [] = [] from rfl, List.append_nil] at ho
            exact hap o ho
        · intro o lim hmem
          rcases List.mem_append.mp hmem with hmem | hmem
          · exact h5 o lim hmem
          · exact i4 o lim hmem
        · intro o lim hmem
          rcases List.mem_append.mp hmem with hmem | hmem
          · exact h6 o lim hmem
          · exact i5 o lim hmem
        · intro hpf
          obtain ⟨hpf1, hcalls1⟩ := h7 hpf
          obtain ⟨hpf2, hcalls2⟩ := i6 hpf1
          refine ⟨hpf2, ?_⟩
          intro call hcall
          rcases List.mem_append.mp hcall with hcall | hcall
          · exact hcalls1 call hcall
          · exact hcalls2 call hcall

/-- **C7**: for every run of the generic iterator from a fresh instance,
the offsets passed to successive fetch calls start at 0 and each later
offset is exactly the previous offset plus the number of items the
previous fetch returned (before client-side filtering); all pages before
the final one are nonempty, so the offsets are strictly increasing —
never advancing by the requested batch size 20 when the server returned
a shorter page.  The same holds for the deterministic (phase-two)
fetcher of the random album iterator, whose calls all use batch size
25. -/
theorem offset_monotonicity :
    (∀ (M : Type) (f : Nat → Nat → FetchResult M) (flt : Filter M)
        (fuel n : Nat) (outs : List (Option M)) (s' : BaseState M) (cs : List Nat),
        baseRun f flt fuel n (initBase M) = some (outs, s', cs) →
        chainedFrom f 20 0 cs ∧
        (∀ o ∈ cs.dropLast, 0 < pageLenAt f 20 o) ∧
        cs.Chain' (· < ·)) ∧
    (∀ (re : Nat → FetchResult Album) (de : Nat → Nat → FetchResult Album)
        (flt : Filter Album) (fuel n : Nat) (outs : List (Option Album))
        (s' : RandomState) (cs : List FetchCall),
        randomRun re de flt fuel n initRandom = some (outs, s', cs) →
        chainedFrom de 25 0 (determOffsets cs) ∧
        (∀ o ∈ (determOffsets cs).dropLast, 0 < pageLenAt de 25 o) ∧
        (determOffsets cs).Chain' (· < ·) ∧
        (∀ o lim, FetchCall.determ o lim ∈ cs → lim = 25)) := by
  constructor
  · intro M f flt fuel n outs s' cs h
    obtain ⟨h1, -, h3⟩ := baseRun_chain f flt fuel n (initBase M) outs s' cs h
    exact ⟨h1, h3, chainedFrom_strict f 20 cs 0 h1 h3⟩
  · intro re de flt fuel n outs s' cs h
    obtain ⟨h1, -, h3, h4, -, -⟩ := randomRun_inv re de flt fuel n initRandom
      outs s' cs h
    exact ⟨h1, h3, chainedFrom_strict de 25 (determOffsets cs) 0 h1 h3, h4⟩

/-- Witness for C7 at concrete inputs: a two-page run of the generic
iterator, and a random-iterator run that reaches phase two and sweeps
two deterministic pages. -/
theorem offset_monotonicity_witness :
    (chainedFrom scenarioFetcher 20 0 [0, 20, 40] ∧
     (∀ o ∈ ([0, 20, 40] : List Nat).dropLast, 0 < pageLenAt scenarioFetcher 20 o) ∧
     ([0, 20, 40] : List Nat).Chain' (· < ·)) ∧
    (chainedFrom
        (fun o _ => if o = 0
          then FetchResult.ok [(⟨"x", "x"⟩ : Album), ⟨"a", "a"⟩, ⟨"y", "y"⟩]
          else FetchResult.ok []) 25 0
        (determOffsets [FetchCall.random 0 25, FetchCall.determ 0 25,
          FetchCall.determ 3 25]) ∧
     (∀ o ∈ (determOffsets [FetchCall.random 0 25, FetchCall.determ 0 25,
          FetchCall.determ 3 25]).dropLast,
        0 < pageLenAt
          (fun o _ => if o = 0
            then FetchResult.ok [(⟨"x", "x"⟩ : Album), ⟨"a", "a"⟩, ⟨"y", "y"⟩]
            else FetchResult.ok []) 25 o) ∧
     (determOffsets [FetchCall.random 0 25, FetchCall.determ 0 25,
        FetchCall.determ 3 25]).Chain' (· < ·) ∧
     (∀ o lim, FetchCall.determ o lim ∈
        [FetchCall.random 0 25, FetchCall.determ 0 25, FetchCall.determ 3 25] →
        lim = 25)) :=
  ⟨offset_monotonicity.1 Nat scenarioFetcher (nilFilter Nat) 2 41
      ((List.range' 0 40).map some ++ [none]) ⟨40, none, 20, true⟩ [0, 20, 40]
      (by decide),
   offset_monotonicity.2
      (fun _ => FetchResult.ok (List.replicate 25 (⟨"a", "a"⟩ : Album)))
      (fun o _ => if o = 0
        then FetchResult.ok [(⟨"x", "x"⟩ : Album), ⟨"a", "a"⟩, ⟨"y", "y"⟩]
        else FetchResult.ok [])
      (nilFilter Album) 3 5
      [some ⟨"a", "a"⟩, some ⟨"x", "x"⟩, some ⟨"y", "y"⟩, none, none]
      ⟨[], [], 0, true, 3, true, 1⟩
      [FetchCall.random 0 25, FetchCall.determ 0 25, FetchCall.determ 3 25]
      (by decide)⟩

/-! ## C3: the phase transition is permanent -/

/-- **C3**: after a phase-one random fetch whose batch yields a
newly-seen count `hitCount` with `hitCount / 25` below 0.30 (exactly
`hitCount ≤ 7`, see `twoMulLt15`), the iterator switches permanently to
phase two: the `Next()` call that processed the batch issued the random
call first and only deterministic calls afterwards and ends with
`phaseTwo = true`; and from any `phaseTwo` state, every later `Next()`
issues only deterministic calls and keeps `phaseTwo` set — the random
fetcher is never called again on that iterator instance. -/
theorem random_phase_transition :
    (∀ (re : Nat → FetchResult Album) (de : Nat → Nat → FetchResult Album)
        (flt : Filter Album) (fuel : Nat) (s : RandomState) (albums : List Album)
        (r : Option Album) (s' : RandomState) (c : List FetchCall),
        s.done = false → s.prefetched = [] → s.phaseTwo = false →
        re s.randCalls = FetchResult.ok albums →
        (processRandomBatch flt albums s.albumIDSet s.prefetched 0).2.2 ≤ 7 →
        randomNext re de flt (fuel + 1) s = some (r, s', c) →
        s'.phaseTwo = true ∧
        c.head? = some (FetchCall.random 0 25) ∧
        (∀ call ∈ c.tail, ∃ o, call = FetchCall.determ o 25)) ∧
    (∀ (re : Nat → FetchResult Album) (de : Nat → Nat → FetchResult Album)
        (flt : Filter Album) (fuel n : Nat) (s : RandomState)
        (outs : List (Option Album)) (s' : RandomState) (cs : List FetchCall),
        s.phaseTwo = true →
        randomRun re de flt fuel n s = some (outs, s', cs) →
        s'.phaseTwo = true ∧ ∀ call ∈ cs, ∃ o, call = FetchCall.determ o 25) := by
  constructor
  · intro re de flt fuel s albums r s' c hd hpre hpt hre hhits h
    rw [hpre] at hhits
    have hsw : 2 * (processRandomBatch flt albums s.albumIDSet [] 0).2.2 < 15 :=
      (twoMulLt15 _).mpr hhits
    unfold randomNext at h
    rw [hd] at h
    simp only [Bool.false_eq_true, if_false] at h
    simp only [randomNextLoop] at h
    rw [hpre, hpt, hre] at h
    simp only [List.isEmpty_nil, if_true, Bool.false_eq_true, if_false] at h
    rw [if_pos hsw] at h
    split at h
    · exact Option.noConfusion h
    · next r0 s2 calls heq2 =>
      rw [Option.some.injEq, Prod.mk.injEq, Prod.mk.injEq] at h
      obtain ⟨hr, hst, hc⟩ := h
      obtain ⟨hpf, hcalls⟩ :=
        (randomNextLoop_inv re de flt fuel _ r0 s2 calls heq2).2.2.2.2.2.2.1 rfl
      refine ⟨by rw [← hst]; exact hpf, by rw [← hc]; rfl, ?_⟩
      intro call hcall
      rw [← hc] at hcall
      exact hcalls call hcall
  · intro re de flt fuel n s outs s' cs hpf h
    exact (randomRun_inv re de flt fuel n s outs s' cs h).2.2.2.2.2 hpf

/-- Witness for C3 at concrete inputs: a 25-copy batch (hit count 1)
switches to phase two within one call; from a phase-two state a run
issues only deterministic calls. -/
theorem random_phase_transition_witness :
    ((⟨["a"], [], 0, true, 0, false, 1⟩ : RandomState).phaseTwo = true ∧
     ([FetchCall.random 0 25].head? = some (FetchCall.random 0 25)) ∧
     (∀ call ∈ [FetchCall.random 0 25].tail, ∃ o, call = FetchCall.determ o 25)) ∧
    ((⟨[], [], 0, true, 0, true, 1⟩ : RandomState).phaseTwo = true ∧
     ∀ call ∈ [FetchCall.determ 0 25], ∃ o, call = FetchCall.determ o 25) :=
  ⟨random_phase_transition.1
      (fun _ => FetchResult.ok (List.replicate 25 (⟨"a", "a"⟩ : Album)))
      (fun _ _ => FetchResult.ok []) (nilFilter Album) 2 initRandom
      (List.replicate 25 (⟨"a", "a"⟩ : Album)) (some ⟨"a", "a"⟩)
      ⟨["a"], [], 0, true, 0, false, 1⟩ [FetchCall.random 0 25]
      rfl rfl rfl rfl (by decide) (by decide),
   random_phase_transition.2
      (fun _ => FetchResult.ok (List.replicate 25 (⟨"a", "a"⟩ : Album)))
      (fun _ _ => FetchResult.ok []) (nilFilter Album) 2 2
      ⟨["a"], [], 0, true, 0, false, 1⟩ [none, none]
      ⟨[], [], 0, true, 0, true, 1⟩ [FetchCall.determ 0 25]
      rfl (by decide)⟩

/-! ## C4: the random iterator never returns an album ID twice -/

/-- The unread part of the random iterator's prefetch buffer. -/
def unreadR (s : RandomState) : List Album :=
  s.prefetched.drop s.prefetchedPos

/-- Invariant of the phase-one batch loop: newly buffered albums have
distinct IDs, all buffered IDs are in the output seen set, the seen set
only grows, and every buffered album was already buffered or was unseen
on entry. -/
theorem processRandomBatch_inv (flt : Filter Album) :
    ∀ (albums : List Album) (seen : List String) (pre : List Album) (hits : Nat),
      (pre.map Album.id).Nodup →
      (∀ a ∈ pre, a.id ∈ seen) →
      ((processRandomBatch flt albums seen pre hits).1.map Album.id).Nodup ∧
      (∀ a ∈ (processRandomBatch flt albums seen pre hits).1,
        a.id ∈ (processRandomBatch flt albums seen pre hits).2.1) ∧
      (∀ x ∈ seen, x ∈ (processRandomBatch flt albums seen pre hits).2.1) ∧
      (∀ a ∈ (processRandomBatch flt albums seen pre hits).1,
        a ∈ pre ∨ a.id ∉ seen) := by
  intro albums
  induction albums with
  | nil =>
    intro seen pre hits h1 h2
    exact ⟨h1, h2, fun x hx => hx, fun a ha => Or.inl ha⟩
  | cons a rest ih =>
    intro seen pre hits h1 h2
    simp only [processRandomBatch]
    split
    · exact ih seen pre hits h1 h2
    · next hns =>
      have hnm : a.id ∉ seen := fun hmem => hns (List.elem_iff.mpr hmem)
      by_cases hm : flt.Matches a = true
      · rw [if_pos hm]
        have h1' : ((pre ++ [a]).map Album.id).Nodup := by
          rw [List.map_append]
          simp only [List.map_cons, List.map_nil]
          rw [List.nodup_append]
          refine ⟨h1, List.nodup_singleton _, ?_⟩
          intro x hx
          simp only [List.mem_singleton]
          intro hxa
          subst hxa
          obtain ⟨b, hb, hbid⟩ := List.mem_map.mp hx
          exact hnm (hbid ▸ h2 b hb)
        have h2' : ∀ b ∈ pre ++ [a], b.id ∈ a.id :: seen := by
          intro b hb
          rcases List.mem_append.mp hb with hb | hb
          · exact List.mem_cons_of_mem _ (h2 b hb)
          · rcases List.mem_singleton.mp hb with hb
            subst hb
            exact List.mem_cons_self _ _
        obtain ⟨i1, i2, i3, i4⟩ := ih (a.id :: seen) (pre ++ [a]) (hits + 1) h1' h2'
        refine ⟨i1, i2, ?_, ?_⟩
        · intro x hx
          exact i3 x (List.mem_cons_of_mem _ hx)
        · intro b hb
          rcases i4 b hb with hb2 | hb2
          · rcases List.mem_append.mp hb2 with hb3 | hb3
            · exact Or.inl hb3
            · rcases List.mem_singleton.mp hb3 with hb3
              subst hb3
              exact Or.inr hnm
          · exact Or.inr (fun hmem => hb2 (List.mem_cons_of_mem _ hmem))
      · rw [if_neg hm]
        have h2' : ∀ b ∈ pre, b.id ∈ a.id :: seen := fun b hb =>
          List.mem_cons_of_mem _ (h2 b hb)
        obtain ⟨i1, i2, i3, i4⟩ := ih (a.id :: seen) pre (hits + 1) h1 h2'
        refine ⟨i1, i2, ?_, ?_⟩
        · intro x hx
          exact i3 x (List.mem_cons_of_mem _ hx)
        · intro b hb
          rcases i4 b hb with hb2 | hb2
          · exact Or.inl hb2
          · exact Or.inr (fun hmem => hb2 (List.mem_cons_of_mem _ hmem))

/-- Invariant of the phase-two batch loop, mirroring
`processRandomBatch_inv`. -/
theorem processDetermBatch_inv (flt : Filter Album) :
    ∀ (albums : List Album) (seen : List String) (pre : List Album),
      (pre.map Album.id).Nodup →
      (∀ a ∈ pre, a.id ∈ seen) →
      ((processDetermBatch flt albums seen pre).1.map Album.id).Nodup ∧
      (∀ a ∈ (processDetermBatch flt albums seen pre).1,
        a.id ∈ (processDetermBatch flt albums seen pre).2) ∧
      (∀ x ∈ seen, x ∈ (processDetermBatch flt albums seen pre).2) ∧
      (∀ a ∈ (processDetermBatch flt albums seen pre).1,
        a ∈ pre ∨ a.id ∉ seen) := by
  intro albums
  induction albums with
  | nil =>
    intro seen pre h1 h2
    exact ⟨h1, h2, fun x hx => hx, fun a ha => Or.inl ha⟩
  | cons a rest ih =>
    intro seen pre h1 h2
    simp only [processDetermBatch]
    split
    · next hcond =>
      rw [Bool.and_eq_true, Bool.not_eq_true'] at hcond
      have hnm : a.id ∉ seen := fun hmem =>
        Bool.noConfusion ((hcond.1).symm.trans (List.elem_iff.mpr hmem))
      have h1' : ((pre ++ [a]).map Album.id).Nodup := by
        rw [List.map_append]
        simp only [List.map_cons, List.map_nil]
        rw [List.nodup_append]
        refine ⟨h1, List.nodup_singleton _, ?_⟩
        intro x hx
        simp only [List.mem_singleton]
        intro hxa
        subst hxa
        obtain ⟨b, hb, hbid⟩ := List.mem_map.mp hx
        exact hnm (hbid ▸ h2 b hb)
      have h2' : ∀ b ∈ pre ++ [a], b.id ∈ a.id :: seen := by
        intro b hb
        rcases List.mem_append.mp hb with hb | hb
        · exact List.mem_cons_of_mem _ (h2 b hb)
        · rcases List.mem_singleton.mp hb with hb
          subst hb
          exact List.mem_cons_self _ _
      obtain ⟨i1, i2, i3, i4⟩ := ih (a.id :: seen) (pre ++ [a]) h1' h2'
      refine ⟨i1, i2, ?_, ?_⟩
      · intro x hx
        exact i3 x (List.mem_cons_of_mem _ hx)
      · intro b hb
        rcases i4 b hb with hb2 | hb2
        · rcases List.mem_append.mp hb2 with hb3 | hb3
          · exact Or.inl hb3
          · rcases List.mem_singleton.mp hb3 with hb3
            subst hb3
            exact Or.inr hnm
        · exact Or.inr (fun hmem => hb2 (List.mem_cons_of_mem _ hmem))
    · exact ih seen pre h1 h2

/-- De-duplication invariant of the fetch/serve loop, with `hist` the
IDs already returned by earlier calls: a returned album's ID is never in
`hist`; as long as the iterator is not done, all of `hist` and the new
item's ID are recorded in the seen set; the unread buffer has pairwise
distinct IDs, disjoint from `hist`, all recorded in the seen set. -/
theorem randomNextLoop_dedup (re : Nat → FetchResult Album)
    (de : Nat → Nat → FetchResult Album) (flt : Filter Album) :
    ∀ (fuel : Nat) (s : RandomState) (hist : List String) (r : Option Album)
      (s' : RandomState) (c : List FetchCall),
      s.done = false →
      (∀ x ∈ hist, x ∈ s.albumIDSet) →
      ((unreadR s).map Album.id).Nodup →
      (∀ a ∈ unreadR s, a.id ∉ hist) →
      (∀ a ∈ unreadR s, a.id ∈ s.albumIDSet) →
      randomNextLoop re de flt fuel s = some (r, s', c) →
      (∀ a, r = some a → a.id ∉ hist) ∧
      (s'.done = false → ∀ x ∈ hist ++ r.toList.map Album.id, x ∈ s'.albumIDSet) ∧
      ((unreadR s').map Album.id).Nodup ∧
      (∀ a ∈ unreadR s', a.id ∉ hist ++ r.toList.map Album.id) ∧
      (s'.done = false → ∀ a ∈ unreadR s', a.id ∈ s'.albumIDSet) := by
  intro fuel
  induction fuel with
  | zero => intro s hist r s' c _ _ _ _ _ h; simp [randomNextLoop] at h
  | succ n ih =>
    intro s hist r s' c hd J1 J2 J3 J4 h
    simp only [randomNextLoop] at h
    split at h
    · next hempty =>
      have hpre : s.prefetched = [] := List.isEmpty_iff.mp hempty
      split at h
      · -- phase two
        split at h
        · -- empty page: terminate
          rw [Option.some.injEq, Prod.mk.injEq, Prod.mk.injEq] at h
          obtain ⟨hr, hst, -⟩ := h
          subst hr hst
          refine ⟨fun a ha => Option.noConfusion ha, ?_, ?_, ?_, ?_⟩
          · intro hdd
            exact absurd hdd (by simp)
          · simp [unreadR, hpre]
          · intro a ha
            simp [unreadR, hpre] at ha
          · intro hdd
            exact absurd hdd (by simp)
        · -- nonempty page: process the deterministic batch and loop
          split at h
          · exact absurd h (by simp)
          · next r0 s2 calls heq2 =>
            rw [Option.some.injEq, Prod.mk.injEq, Prod.mk.injEq] at h
            obtain ⟨hr, hst, -⟩ := h
            subst hr hst
            obtain ⟨b1, b2, b3, b4⟩ := processDetermBatch_inv flt
              (pageItems (de s.offset 25)) s.albumIDSet s.prefetched
              (by rw [hpre]; exact List.nodup_nil)
              (by rw [hpre]; intro a ha; cases ha)
            refine ih _ hist r0 s2 calls ?_ ?_ ?_ ?_ ?_ heq2
            · exact hd
            · intro x hx
              exact b3 x (J1 x hx)
            · exact b1.sublist ((List.drop_sublist _ _).map _)
            · intro a ha
              rcases b4 a (List.mem_of_mem_drop ha) with hin | hout
              · rw [hpre] at hin
                cases hin
              · intro hmem
                exact hout (J1 a.id hmem)
            · intro a ha
              exact b2 a (List.mem_of_mem_drop ha)
      · -- phase one
        split at h
        · -- transport error: terminate
          rw [Option.some.injEq, Prod.mk.injEq, Prod.mk.injEq] at h
          obtain ⟨hr, hst, -⟩ := h
          subst hr hst
          refine ⟨fun a ha => Option.noConfusion ha, ?_, ?_, ?_, ?_⟩
          · intro hdd
            exact absurd hdd (by simp)
          · simp [unreadR, hpre]
          · intro a ha
            simp [unreadR, hpre] at ha
          · intro hdd
            exact absurd hdd (by simp)
        · -- ok batch: process the random batch and loop
          next albums hre =>
          split at h
          · exact absurd h (by simp)
          · next r0 s2 calls heq2 =>
            rw [Option.some.injEq, Prod.mk.injEq, Prod.mk.injEq] at h
            obtain ⟨hr, hst, -⟩ := h
            subst hr hst
            obtain ⟨b1, b2, b3, b4⟩ := processRandomBatch_inv flt
              albums s.albumIDSet s.prefetched 0
              (by rw [hpre]; exact List.nodup_nil)
              (by rw [hpre]; intro a ha; cases ha)
            refine ih _ hist r0 s2 calls ?_ ?_ ?_ ?_ ?_ heq2
            · exact hd
            · intro x hx
              exact b3 x (J1 x hx)
            · exact b1.sublist ((List.drop_sublist _ _).map _)
            · intro a ha
              rcases b4 a (List.mem_of_mem_drop ha) with hin | hout
              · rw [hpre] at hin
                cases hin
              · intro hmem
                exact hout (J1 a.id hmem)
            · intro a ha
              exact b2 a (List.mem_of_mem_drop ha)
    · -- serve from the prefetch buffer
      split at h
      · exact Option.noConfusion h
      · next a ha =>
        have hdrop : s.prefetched.drop s.prefetchedPos =
            a :: s.prefetched.drop (s.prefetchedPos + 1) :=
          drop_cons_of_get? _ _ _ ha
        have hamem : a ∈ unreadR s := by
          rw [unreadR, hdrop]
          exact List.mem_cons_self _ _
        have hanotin : a.id ∉ hist := J3 a hamem
        have haset : a.id ∈ s.albumIDSet := J4 a hamem
        split at h
        · -- buffer exhausted: reset
          rw [Option.some.injEq, Prod.mk.injEq, Prod.mk.injEq] at h
          obtain ⟨hr, hst, -⟩ := h
          subst hr hst
          refine ⟨?_, ?_, ?_, ?_, ?_⟩
          · intro b hb
            rw [Option.some.injEq] at hb
            subst hb
            exact hanotin
          · intro _ x hx
            rcases List.mem_append.mp hx with hx | hx
            · exact J1 x hx
            · simp only [Option.toList, List.map_cons, List.map_nil] at hx
              rcases List.mem_singleton.mp hx with hx
              subst hx
              exact haset
          · simp [unreadR]
          · intro b hb
            simp [unreadR] at hb
          · intro _ b hb
            simp [unreadR] at hb
        · -- advance the read position
          rw [Option.some.injEq, Prod.mk.injEq, Prod.mk.injEq] at h
          obtain ⟨hr, hst, -⟩ := h
          subst hr hst
          have hnodup : ((a :: s.prefetched.drop (s.prefetchedPos + 1)).map
              Album.id).Nodup := by
            rw [← hdrop]
            exact J2
          rw [List.map_cons] at hnodup
          refine ⟨?_, ?_, ?_, ?_, ?_⟩
          · intro b hb
            rw [Option.some.injEq] at hb
            subst hb
            exact hanotin
          · intro _ x hx
            rcases List.mem_append.mp hx with hx | hx
            · exact J1 x hx
            · simp only [Option.toList, List.map_cons, List.map_nil] at hx
              rcases List.mem_singleton.mp hx with hx
              subst hx
              exact haset
          · exact (List.nodup_cons.mp hnodup).2
          · intro b hb
            intro hmem
            have hbu : b ∈ unreadR s := by
              rw [unreadR, hdrop]
              exact List.mem_cons_of_mem _ hb
            rcases List.mem_append.mp hmem with hmem | hmem
            · exact J3 b hbu hmem
            · simp only [Option.toList, List.map_cons, List.map_nil] at hmem
              rcases List.mem_singleton.mp hmem with hmem
              exact (List.nodup_cons.mp hnodup).1
                (hmem ▸ List.mem_map_of_mem Album.id hb)
          · intro _ b hb
            refine J4 b ?_
            rw [unreadR, hdrop]
            exact List.mem_cons_of_mem _ hb

theorem randomNext_dedup (re : Nat → FetchResult Album)
    (de : Nat → Nat → FetchResult Album) (flt : Filter Album) (fuel : Nat)
    (s : RandomState) (hist : List String) (r : Option Album) (s' : RandomState)
    (c : List FetchCall)
    (J1 : s.done = false → ∀ x ∈ hist, x ∈ s.albumIDSet)
    (J2 : ((unreadR s).map Album.id).Nodup)
    (J3 : ∀ a ∈ unreadR s, a.id ∉ hist)
    (J4 : s.done = false → ∀ a ∈ unreadR s, a.id ∈ s.albumIDSet)
    (h : randomNext re de flt fuel s = some (r, s', c)) :
    (∀ a, r = some a → a.id ∉ hist) ∧
    (s'.done = false → ∀ x ∈ hist ++ r.toList.map Album.id, x ∈ s'.albumIDSet) ∧
    ((unreadR s').map Album.id).Nodup ∧
    (∀ a ∈ unreadR s', a.id ∉ hist ++ r.toList.map Album.id) ∧
    (s'.done = false → ∀ a ∈ unreadR s', a.id ∈ s'.albumIDSet) := by
  unfold randomNext at h
  split at h
  · next hdone =>
    rw [Option.some.injEq, Prod.mk.injEq, Prod.mk.injEq] at h
    obtain ⟨hr, hst, -⟩ := h
    subst hr hst
    refine ⟨fun a ha => Option.noConfusion ha, ?_, J2, ?_, J4⟩
    · intro hdd x hx
      simp only [Option.toList, List.map_nil, List.append_nil] at hx
      exact J1 hdd x hx
    · intro a haun
      simp only [Option.toList, List.map_nil, List.append_nil]
      exact J3 a haun
  · next hdone =>
    rw [Bool.not_eq_true] at hdone
    exact randomNextLoop_dedup re de flt fuel s hist r s' c hdone (J1 hdone)
      J2 J3 (J4 hdone) h

theorem randomRun_dedup (re : Nat → FetchResult Album)
    (de : Nat → Nat → FetchResult Album) (flt : Filter Album) (fuel : Nat) :
    ∀ (n : Nat) (s : RandomState) (hist : List String)
      (outs : List (Option Album)) (s' : RandomState) (cs : List FetchCall),
      hist.Nodup →
      (s.done = false → ∀ x ∈ hist, x ∈ s.albumIDSet) →
      ((unreadR s).map Album.id).Nodup →
      (∀ a ∈ unreadR s, a.id ∉ hist) →
      (s.done = false → ∀ a ∈ unreadR s, a.id ∈ s.albumIDSet) →
      randomRun re de flt fuel n s = some (outs, s', cs) →
      (hist ++ (outs.filterMap id).map Album.id).Nodup := by
  intro n
  induction n with
  | zero =>
    intro s hist outs s' cs hh J1 J2 J3 J4 h
    simp only [randomRun, Option.some.injEq, Prod.mk.injEq] at h
    obtain ⟨ho, -, -⟩ := h
    rw [← ho]
    simpa using hh
  | succ k ih =>
    intro s hist outs s' cs hh J1 J2 J3 J4 h
    simp only [randomRun] at h
    split at h
    · exact Option.noConfusion h
    · next r s1 c hnx =>
      split at h
      · exact Option.noConfusion h
      · next rs s2 cs1 hrun =>
        rw [Option.some.injEq, Prod.mk.injEq, Prod.mk.injEq] at h
        obtain ⟨ho, -, -⟩ := h
        rw [← ho]
        obtain ⟨K0, K1, K2, K3, K4⟩ :=
          randomNext_dedup re de flt fuel s hist r s1 c J1 J2 J3 J4 hnx
        have hh1 : (hist ++ r.toList.map Album.id).Nodup := by
          cases r with
          | none => simpa using hh
          | some a =>
            simp only [Option.toList, List.map_cons, List.map_nil]
            rw [List.nodup_append]
            exact ⟨hh, List.nodup_singleton _,
              fun x hx => by
                simp only [List.mem_singleton]
                intro hxa
                subst hxa
                exact K0 a rfl hx⟩
        have hrec := ih s1 (hist ++ r.toList.map Album.id) rs s2 cs1
          hh1 K1 K2 K3 K4 hrun
        have hout : ((r :: rs).filterMap id).map Album.id =
            r.toList.map Album.id ++ (rs.filterMap id).map Album.id := by
          cases r <;> simp
        rw [hout, ← List.append_assoc]
        exact hrec

/-- **C4**: across any run of the random album iterator from a fresh
instance, no album ID is returned twice — the IDs of the non-nil results
of `Next()`, in order, are pairwise distinct. -/
theorem random_no_duplicates :
    ∀ (re : Nat → FetchResult Album) (de : Nat → Nat → FetchResult Album)
      (flt : Filter Album) (fuel n : Nat) (outs : List (Option Album))
      (s' : RandomState) (cs : List FetchCall),
      randomRun re de flt fuel n initRandom = some (outs, s', cs) →
      ((outs.filterMap id).map Album.id).Nodup := by
  intro re de flt fuel n outs s' cs h
  have hd := randomRun_dedup re de flt fuel n initRandom [] outs s' cs
    List.nodup_nil
    (fun _ x hx => absurd hx (List.not_mem_nil x))
    (by simp [unreadR, initRandom])
    (fun a ha => by simp [unreadR, initRandom] at ha)
    (fun _ a ha => by simp [unreadR, initRandom] at ha) h
  simpa using hd

/-- Witness for C4 at concrete inputs: a run in which the deterministic
sweep re-encounters the already-returned album `"a"` and skips it. -/
theorem random_no_duplicates_witness :
    (([some (⟨"a", "a"⟩ : Album), some ⟨"x", "x"⟩, some ⟨"y", "y"⟩, none,
        none].filterMap id).map Album.id).Nodup :=
  random_no_duplicates
    (fun _ => FetchResult.ok (List.replicate 25 (⟨"a", "a"⟩ : Album)))
    (fun o _ => if o = 0
      then FetchResult.ok [(⟨"x", "x"⟩ : Album), ⟨"a", "a"⟩, ⟨"y", "y"⟩]
      else FetchResult.ok [])
    (nilFilter Album) 3 5
    [some ⟨"a", "a"⟩, some ⟨"x", "x"⟩, some ⟨"y", "y"⟩, none, none]
    ⟨[], [], 0, true, 3, true, 1⟩
    [FetchCall.random 0 25, FetchCall.determ 0 25, FetchCall.determ 3 25]
    (by decide)

/-! ## C10: client-side determinism -/

/-- **C10**: both iterators are deterministic client-side.  The state
machines are pure functions of the iterator state and the server's
responses (the only concurrency in the source, the fire-and-forget
prefetch callbacks, never influences the returned items or state), so
two runs whose fetchers return identical responses to identical calls
and whose filters behave identically produce identical result
sequences, states and call traces — in particular the random album
iterator introduces no client-side randomness: all randomness comes from
the server's responses, modelled by the response oracles. -/
theorem client_side_determinism :
    (∀ (M : Type) (f g : Nat → Nat → FetchResult M) (flt1 flt2 : Filter M),
        (∀ o l, f o l = g o l) →
        flt1.IsNil = flt2.IsNil →
        (∀ a, flt1.Matches a = flt2.Matches a) →
        ∀ (fuel n : Nat) (s : BaseState M),
          baseRun f flt1 fuel n s = baseRun g flt2 fuel n s) ∧
    (∀ (re1 re2 : Nat → FetchResult Album)
        (de1 de2 : Nat → Nat → FetchResult Album) (flt1 flt2 : Filter Album),
        (∀ i, re1 i = re2 i) →
        (∀ o l, de1 o l = de2 o l) →
        flt1.IsNil = flt2.IsNil →
        (∀ a, flt1.Matches a = flt2.Matches a) →
        ∀ (fuel n : Nat) (s : RandomState),
          randomRun re1 de1 flt1 fuel n s = randomRun re2 de2 flt2 fuel n s) := by
  constructor
  · intro M f g flt1 flt2 hf hnil hmatch fuel n s
    have hfg : f = g := funext fun o => funext fun l => hf o l
    have hfe : flt1 = flt2 := by
      cases flt1
      cases flt2
      simp only [Filter.mk.injEq]
      exact ⟨hnil, funext hmatch⟩
    rw [hfg, hfe]
  · intro re1 re2 de1 de2 flt1 flt2 hre hde hnil hmatch fuel n s
    have h1 : re1 = re2 := funext hre
    have h2 : de1 = de2 := funext fun o => funext fun l => hde o l
    have hfe : flt1 = flt2 := by
      cases flt1
      cases flt2
      simp only [Filter.mk.injEq]
      exact ⟨hnil, funext hmatch⟩
    rw [h1, h2, hfe]

/-- Witness for C10 at concrete inputs: syntactically different but
pointwise equal fetchers produce identical runs. -/
theorem client_side_determinism_witness :
    baseRun (fun o _ => if o = o then FetchResult.ok ([] : List Nat)
        else FetchResult.err) (nilFilter Nat) 1 2 (initBase Nat) =
      baseRun (fun _ _ => FetchResult.ok ([] : List Nat)) (nilFilter Nat) 1 2
        (initBase Nat) ∧
    randomRun (fun i => if i = i then FetchResult.err
        else FetchResult.ok []) (fun _ _ => FetchResult.err) (nilFilter Album)
        1 2 initRandom =
      randomRun (fun _ => FetchResult.err) (fun _ _ => FetchResult.err)
        (nilFilter Album) 1 2 initRandom :=
  ⟨client_side_determinism.1 Nat
      (fun o _ => if o = o then FetchResult.ok [] else FetchResult.err)
      (fun _ _ => FetchResult.ok []) (nilFilter Nat) (nilFilter Nat)
      (fun o l => by simp) rfl (fun a => rfl) 1 2 (initBase Nat),
   client_side_determinism.2
      (fun i => if i = i then FetchResult.err else FetchResult.ok [])
      (fun _ => FetchResult.err) (fun _ _ => FetchResult.err)
      (fun _ _ => FetchResult.err) (nilFilter Album) (nilFilter Album)
      (fun i => by simp) (fun o l => rfl) rfl (fun a => rfl) 1 2 initRandom⟩

end Supersonic
